import Mathlib

/-!
# Verification of the quarry file-operation engine

A shallow embedding, in Lean 4, of the file-operation core of the quarry
dual-pane file manager: the percent-encoding helpers of `Connections.cpp`,
the path/backend helpers of `util.cpp` (`LooksLikeUriString`,
`JoinDirAndNameAny`, `CopyRegularFileChunked`, `CopyPathRecursiveImpl`,
`MovePath`, `TrashPath`), the copy/move, delete and trash worker loops and
the scan pre-pass of `MainFrame.cpp`, and the operation queue controller
(`EnqueueOp`, `StartNextQueuedOp`).

C++ strings are embedded as lists of byte values (`ByteStr`); filesystem
trees as an inductive `FsNode`; the effectful calls (filesystem queries,
GIO operations, user decisions, the UI cancel button) as explicit oracle
environments queried in program order, so every embedded function is an
executable Lean function and all theorems are about the translated code.
-/

namespace Quarry

/-- A C++ `std::string` as its list of byte values (0..255). -/
abbrev ByteStr := List Nat

/-! ## Connections.cpp: PercentDecode / PercentEncode (lines 16-58) -/

/-- The `hex` lambda inside `Connections.cpp::PercentDecode`: value of one
hex digit byte, `none` where the C++ returns -1. -/
def hexVal (c : Nat) : Option Nat :=
  if 48 ≤ c ∧ c ≤ 57 then some (c - 48)
  else if 65 ≤ c ∧ c ≤ 70 then some (10 + (c - 65))
  else if 97 ≤ c ∧ c ≤ 102 then some (10 + (c - 97))
  else none

/-- `Connections.cpp::PercentDecode` (lines 16-38): scans the string; at a
`%` (byte 37) followed by at least two more bytes that are both valid hex
digits, emits the decoded byte and skips the digits; any other byte is
passed through unchanged. -/
def percentDecode : ByteStr → ByteStr
  | 37 :: a :: b :: rest =>
    match hexVal a, hexVal b with
    | some hi, some lo => (hi * 16 + lo) :: percentDecode rest
    | _, _ => 37 :: percentDecode (a :: b :: rest)
  | c :: rest => c :: percentDecode rest
  | [] => []

/-- The `isUnreserved` lambda inside `Connections.cpp::PercentEncode`:
`[A-Za-z0-9]`, `-`, `.`, `_`, `~`. -/
def isUnreserved (c : Nat) : Bool :=
  (65 ≤ c && c ≤ 90) || (97 ≤ c && c ≤ 122) || (48 ≤ c && c ≤ 57) ||
  c == 45 || c == 46 || c == 95 || c == 126

/-- The `hex` table `"0123456789ABCDEF"` of `PercentEncode`: the byte of
the uppercase hex digit for a value in 0..15. -/
def hexDigit (n : Nat) : Nat := if n < 10 then 48 + n else 55 + n

/-- `Connections.cpp::PercentEncode` (lines 40-58): unreserved bytes and
`/` (byte 47) pass through; every other byte becomes `%` followed by the
two uppercase hex digits of `(c >> 4) & 0xF` and `c & 0xF`. -/
def percentEncode : ByteStr → ByteStr
  | [] => []
  | c :: rest =>
    if isUnreserved c || c == 47 then c :: percentEncode rest
    else 37 :: hexDigit (c / 16 % 16) :: hexDigit (c % 16) :: percentEncode rest

theorem hexVal_hexDigit (n : Nat) (h : n < 16) : hexVal (hexDigit n) = some n := by
  interval_cases n <;> decide

theorem pass_through_ne_percent (c : Nat) (h : (isUnreserved c || c == 47) = true) :
    c ≠ 37 := by
  intro e
  subst e
  exact absurd h (by decide)

theorem percentDecode_cons_of_ne (c : Nat) (t : ByteStr) (h : c ≠ 37) :
    percentDecode (c :: t) = c :: percentDecode t := by
  rw [percentDecode.eq_def]
  split
  · rename_i a b rest heq
    injection heq with h1 _
    exact absurd h1 h
  · rename_i c2 rest2 heq
    injection heq with h1 h2
    rw [h1, h2]
  · rename_i heq
    exact absurd heq (by simp)

/-! ## util.cpp: LooksLikeUriString and JoinDirAndNameAny -/

/-- Position of the first occurrence of `"://"` (`s.find("://")`), `none`
for `npos`. -/
def findUriSep : ByteStr → Option Nat
  | 58 :: 47 :: 47 :: _ => some 0
  | _ :: rest => Option.map (fun n => n + 1) (findUriSep rest)
  | [] => none

/-- `util.cpp::LooksLikeUriString` (lines 27-30): `"://"` occurs at a
non-zero offset. -/
def looksLikeUriString (s : ByteStr) : Bool :=
  match findUriSep s with
  | some p => decide (0 < p)
  | none => false

/-- `MainFrame.cpp::LooksLikeUriPath` (lines 278-281): `"://"` occurs at
any offset. -/
def looksLikeUriPath (s : ByteStr) : Bool := (findUriSep s).isSome

/-- `std::filesystem::path::operator/` on POSIX for the cases the engine
meets: an absolute right side replaces the left; otherwise a `/` separator
is inserted unless the left side is empty or already ends in one. -/
def fsPathAppend (dir name : ByteStr) : ByteStr :=
  if name.head? = some 47 then name
  else if dir = [] then name
  else if dir.getLast? = some 47 then dir ++ name
  else dir ++ 47 :: name

/-- `util.cpp::JoinDirAndNameAny` (lines 723-742), the self-contained
(non-GIO) branch: a URI-looking base gets `"/" + name` appended verbatim
(no separator if the base already ends in `/`, bare `name` for an empty
base); a local base uses `dir / fs::path(name)`.  The `QUARRY_USE_GIO`
branch instead delegates the remote join to the external GIO library
(`g_file_get_child` / `g_file_get_uri`), which is not code of this
repository. -/
def joinDirAndNameAny (dir name : ByteStr) : ByteStr :=
  if looksLikeUriString dir then
    if dir = [] then name
    else if dir.getLast? = some 47 then dir ++ name
    else dir ++ 47 :: name
  else fsPathAppend dir name

/-- The amended description of `JoinDirAndNameAny`, written from its
corrected specification: ordinary path concatenation for a local base; for
a URI-looking base the name is appended verbatim as `base + "/" + name`
(no extra separator when the base already ends in `/`), with no
percent-encoding applied. -/
def joinSpecAmended (dir name : ByteStr) : ByteStr :=
  if looksLikeUriString dir then
    if dir.getLast? = some 47 then dir ++ name else dir ++ 47 :: name
  else fsPathAppend dir name

theorem looksLikeUriString_nil : looksLikeUriString [] = false := rfl

/-! ## Claims C9 and C10 -/

/-- C10: for every byte string `s`, `PercentDecode (PercentEncode s) = s`:
encoding passes through unreserved bytes and `/`, emits uppercase `%XX`
for every other byte (including `%` itself), and decoding recovers the
original bytes exactly. -/
theorem percent_roundtrip (s : ByteStr) (h : ∀ c ∈ s, c < 256) :
    percentDecode (percentEncode s) = s := by
  induction s with
  | nil => rfl
  | cons c rest ih =>
    have hc : c < 256 := h c (List.mem_cons_self c rest)
    have hr : ∀ x ∈ rest, x < 256 := fun x hx => h x (List.mem_cons_of_mem c hx)
    by_cases hp : (isUnreserved c || c == 47) = true
    · rw [percentEncode, if_pos hp,
        percentDecode_cons_of_ne c _ (pass_through_ne_percent c hp), ih hr]
    · rw [percentEncode, if_neg hp]
      have hhi : c / 16 % 16 < 16 := Nat.mod_lt _ (by omega)
      have hlo : c % 16 < 16 := Nat.mod_lt _ (by omega)
      rw [percentDecode, hexVal_hexDigit _ hhi, hexVal_hexDigit _ hlo]
      simp only [ih hr, List.cons.injEq, and_true]
      omega

/-- Witness for C10 at the concrete bytes `"a %\xff"` (97, 32, 37, 255). -/
theorem percent_roundtrip_witness :
    percentDecode (percentEncode [97, 32, 37, 255]) = [97, 32, 37, 255] :=
  percent_roundtrip [97, 32, 37, 255] (by decide)

/-- C9 counterexample: joining the remote base `"smb://h"` with the name
`"a b"` (bytes 97, 32, 98) appends the name verbatim, not the
percent-encoded segment `"a%20b"` the claim requires. -/
theorem join_no_encoding_counterexample :
    looksLikeUriString [115, 109, 98, 58, 47, 47, 104] = true ∧
    joinDirAndNameAny [115, 109, 98, 58, 47, 47, 104] [97, 32, 98] =
      [115, 109, 98, 58, 47, 47, 104] ++ 47 :: [97, 32, 98] ∧
    joinDirAndNameAny [115, 109, 98, 58, 47, 47, 104] [97, 32, 98] ≠
      [115, 109, 98, 58, 47, 47, 104] ++ 47 :: percentEncode [97, 32, 98] := by
  refine ⟨by decide, by decide, by decide⟩

/-- C9 amended: `JoinDirAndNameAny` performs ordinary path concatenation
for a local base, and for a URI-looking base appends `"/" + name`
verbatim, with no percent-encoding of the name (the GIO build delegates
the remote join to the external GIO library instead). -/
theorem join_matches_amended_spec (dir name : ByteStr) :
    joinDirAndNameAny dir name = joinSpecAmended dir name := by
  unfold joinDirAndNameAny joinSpecAmended
  by_cases hu : looksLikeUriString dir = true
  · rw [if_pos hu, if_pos hu]
    have hne : dir ≠ [] := by
      intro e
      rw [e, looksLikeUriString_nil] at hu
      exact absurd hu (by decide)
    rw [if_neg hne]
  · rw [if_neg hu, if_neg hu]

/-! ## util.cpp: results and CopyRegularFileChunked (lines 416-469) -/

/-- `util.h::OpResult`: success flag and message string. -/
structure OpResult where
  ok : Bool
  message : ByteStr := []
  deriving DecidableEq, Repr

/-- `{.ok = true}`. -/
def okResult : OpResult := {ok := true}

/-- `util.cpp::CanceledResult()`: failure with the message `"Canceled"`. -/
def canceledResult : OpResult :=
  {ok := false, message := [67, 97, 110, 99, 101, 108, 101, 100]}

/-- The 4 MiB buffer `kBufSize` of `CopyRegularFileChunked`. -/
def kBufSize : Nat := 4 * 1024 * 1024

/-- Outcome of the chunked copy (I/O errors aside). -/
inductive ChunkRes where
  | ok
  | canceled
  deriving DecidableEq, Repr

/-- The read/write loop of `CopyRegularFileChunked` (lines 443-463).
`cancel` is the value the cancellation flag shows at each successive
check (`idx` counts the checks; check 0 was the one at function entry);
`remaining` is the source bytes not yet read, `written` the bytes already
in the destination file.  Each iteration first checks the flag — on
cancel the partial destination is removed (`fs::remove(dst)`) and
`Canceled` returned — then reads up to one buffer; a zero-byte read ends
the loop.  Returns the destination file size afterwards (`none` = no
file) and the outcome. -/
def chunkedLoop (cancel : Nat → Bool) (idx remaining written : Nat) :
    Option Nat × ChunkRes :=
  if cancel idx then (none, ChunkRes.canceled)
  else if remaining = 0 then (some written, ChunkRes.ok)
  else
    chunkedLoop cancel (idx + 1) (remaining - min kBufSize remaining)
      (written + min kBufSize remaining)
termination_by remaining
decreasing_by
  have hk : kBufSize = 4194304 := rfl
  omega

/-- `util.cpp::CopyRegularFileChunked` (lines 416-469): a cancel check at
function entry (before the destination is opened — the pre-existing
destination `dstBefore` is then left untouched), then the destination is
opened truncated and the chunk loop runs.  Open/write I/O failures are
orthogonal to the cancellation claim and not modelled. -/
def copyRegularFileChunked (cancel : Nat → Bool) (srcSize : Nat)
    (dstBefore : Option Nat) : Option Nat × ChunkRes :=
  if cancel 0 then (dstBefore, ChunkRes.canceled)
  else chunkedLoop cancel 1 srcSize 0

/-- Checks the loop makes on a run that reads `s` source bytes: one per
full buffer plus the final iteration that sees the zero-byte read. -/
def numLoopChecks (s : Nat) : Nat := s / kBufSize + 1

theorem chunkedLoop_spec (cancel : Nat → Bool) :
    ∀ remaining idx written,
      ((chunkedLoop cancel idx remaining written).2 = ChunkRes.canceled →
        (chunkedLoop cancel idx remaining written).1 = none) ∧
      ((chunkedLoop cancel idx remaining written).2 = ChunkRes.ok →
        (chunkedLoop cancel idx remaining written).1 = some (written + remaining)) := by
  intro remaining
  induction remaining using Nat.strong_induction_on with
  | _ remaining ih =>
    intro idx written
    by_cases hc : cancel idx = true
    · rw [chunkedLoop, if_pos hc]
      simp
    · by_cases h0 : remaining = 0
      · rw [chunkedLoop, if_neg hc, if_pos h0]
        subst h0
        simp
      · rw [chunkedLoop, if_neg hc, if_neg h0]
        have hk : kBufSize = 4194304 := rfl
        have hlt : remaining - min kBufSize remaining < remaining := by omega
        obtain ⟨h1, h2⟩ := ih (remaining - min kBufSize remaining) hlt (idx + 1)
          (written + min kBufSize remaining)
        refine ⟨h1, fun hok => ?_⟩
        rw [h2 hok]
        congr 1
        omega

theorem chunkedLoop_ok_all_checks_false (cancel : Nat → Bool) :
    ∀ remaining idx written,
      (chunkedLoop cancel idx remaining written).2 = ChunkRes.ok →
      ∀ j, idx ≤ j → j ≤ idx + remaining / kBufSize → cancel j = false := by
  intro remaining
  induction remaining using Nat.strong_induction_on with
  | _ remaining ih =>
    intro idx written hok j hj1 hj2
    have hk : kBufSize = 4194304 := rfl
    by_cases hc : cancel idx = true
    · rw [chunkedLoop, if_pos hc] at hok
      exact absurd hok (by simp)
    · by_cases h0 : remaining = 0
      · subst h0
        simp only [hk] at hj2
        have : j = idx := by omega
        rw [this]
        exact Bool.eq_false_iff.mpr hc
      · rw [chunkedLoop, if_neg hc, if_neg h0] at hok
        by_cases hji : j = idx
        · rw [hji]; exact Bool.eq_false_iff.mpr hc
        · have hlt : remaining - min kBufSize remaining < remaining := by omega
          refine ih (remaining - min kBufSize remaining) hlt (idx + 1)
            (written + min kBufSize remaining) hok j (by omega) ?_
          simp only [hk] at hj2 ⊢
          omega

/-! ## util.cpp: MovePath (lines 658-689), the local branch -/

/-- Error classes an `fs::rename` call can fail with. -/
inductive RenameErr where
  | crossDevice
  | notSupported
  | permissionDenied
  | otherIo
  deriving DecidableEq, Repr

/-- Which backend operations a `MovePath` call performed. -/
inductive MoveEv where
  | renameTried
  | copyTried
  | deleteTried
  deriving DecidableEq, Repr

/-- The environment a local `MovePath` runs against: whether and how the
`fs::rename` fails, what `CopyPathRecursiveImpl` and `DeletePath` would
return, and the cancellation flag as read between copy and delete. -/
structure MoveEnv where
  renameErr : Option RenameErr
  copyRes : OpResult
  canceledAfterCopy : Bool
  deleteRes : OpResult

/-- `util.cpp::MovePath` (lines 662-689), local (non-URI) branch: try
`fs::rename`; on success, done.  On ANY rename error fall back to
`CopyPathRecursiveImpl`; if the copy fails return that failure (the
source is not deleted); then the cancel flag; then `DeletePath(src)`,
whose failure is returned; otherwise success.  Returns the result and the
operations attempted, in order. -/
def movePathLocal (env : MoveEnv) : OpResult × List MoveEv :=
  match env.renameErr with
  | none => (okResult, [MoveEv.renameTried])
  | some _ =>
    if env.copyRes.ok = false then
      (env.copyRes, [MoveEv.renameTried, MoveEv.copyTried])
    else if env.canceledAfterCopy then
      (canceledResult, [MoveEv.renameTried, MoveEv.copyTried])
    else if env.deleteRes.ok = false then
      (env.deleteRes, [MoveEv.renameTried, MoveEv.copyTried, MoveEv.deleteTried])
    else
      (okResult, [MoveEv.renameTried, MoveEv.copyTried, MoveEv.deleteTried])

/-! ## Claims C3 and C7 -/

/-- A concrete environment: the rename fails with permission denied, the
copy and the delete would both succeed. -/
def moveEnvPermDenied : MoveEnv where
  renameErr := some RenameErr.permissionDenied
  copyRes := okResult
  canceledAfterCopy := false
  deleteRes := okResult

/-- C3 counterexample: a rename failure whose class is permission-denied —
neither cross-device nor not-supported — still triggers the copy+delete
fallback in the local `MovePath`, so the fallback is not restricted to the
claimed error classes. -/
theorem movePath_fallback_counterexample :
    MoveEv.copyTried ∈ (movePathLocal moveEnvPermDenied).2 ∧
    moveEnvPermDenied.renameErr ≠ some RenameErr.crossDevice ∧
    moveEnvPermDenied.renameErr ≠ some RenameErr.notSupported := by
  decide

/-- C3 amended: `MovePath` first attempts an atomic rename; on ANY rename
failure (not only a cross-device or not-supported class) it falls back to
recursive copy followed by delete of the source; and if the copy phase of
the fallback fails, the move returns that failure without deleting the
source. -/
theorem movePath_amended (env : MoveEnv) :
    (env.renameErr = none →
      movePathLocal env = (okResult, [MoveEv.renameTried])) ∧
    (env.renameErr ≠ none → MoveEv.copyTried ∈ (movePathLocal env).2) ∧
    (env.renameErr ≠ none → env.copyRes.ok = false →
      (movePathLocal env).1 = env.copyRes ∧
      MoveEv.deleteTried ∉ (movePathLocal env).2) ∧
    (env.renameErr ≠ none → env.copyRes.ok = true → env.canceledAfterCopy = false →
      MoveEv.deleteTried ∈ (movePathLocal env).2 ∧
      (movePathLocal env).1 = (if env.deleteRes.ok then okResult else env.deleteRes)) := by
  obtain ⟨re, ⟨cok, cmsg⟩, cac, ⟨dok, dmsg⟩⟩ := env
  cases re <;> cases cok <;> cases cac <;> cases dok <;>
    simp [movePathLocal, okResult]

/-- C7: the direct (local chunked) file copy checks the cancellation flag
before every chunk; once the copy proper has started (the entry check
passed), a cancellation observed at any of the loop's checks stops the
copy, removes the partial destination and yields `Canceled` — so a
canceled multi-chunk copy leaves no destination file at all, a completed
one leaves exactly the source's bytes, and no outcome leaves a
destination larger than the source. -/
theorem chunked_copy_cancellation (cancel : Nat → Bool) (srcSize : Nat)
    (dstBefore : Option Nat) (hentry : cancel 0 = false) :
    ((copyRegularFileChunked cancel srcSize dstBefore).2 = ChunkRes.canceled →
      (copyRegularFileChunked cancel srcSize dstBefore).1 = none) ∧
    ((copyRegularFileChunked cancel srcSize dstBefore).2 = ChunkRes.ok →
      (copyRegularFileChunked cancel srcSize dstBefore).1 = some srcSize) ∧
    (∀ n, (copyRegularFileChunked cancel srcSize dstBefore).1 = some n → n ≤ srcSize) ∧
    ((∃ i, 1 ≤ i ∧ i ≤ numLoopChecks srcSize ∧ cancel i = true) →
      (copyRegularFileChunked cancel srcSize dstBefore).2 = ChunkRes.canceled) := by
  have hu : copyRegularFileChunked cancel srcSize dstBefore =
      chunkedLoop cancel 1 srcSize 0 := by
    rw [copyRegularFileChunked, if_neg (by simp [hentry])]
  have hspec := chunkedLoop_spec cancel srcSize 1 0
  rw [hu]
  refine ⟨hspec.1, fun hok => by simpa using hspec.2 hok, ?_, ?_⟩
  · intro n hn
    cases hres : (chunkedLoop cancel 1 srcSize 0).2 with
    | ok =>
      have := hspec.2 hres
      rw [this] at hn
      simp at hn
      omega
    | canceled =>
      have := hspec.1 hres
      rw [this] at hn
      exact absurd hn (by simp)
  · rintro ⟨i, hi1, hi2, hic⟩
    cases hres : (chunkedLoop cancel 1 srcSize 0).2 with
    | ok =>
      have hall := chunkedLoop_ok_all_checks_false cancel srcSize 1 0 hres i hi1
        (by unfold numLoopChecks at hi2; omega)
      rw [hall] at hic
      exact absurd hic (by simp)
    | canceled => rfl

/-- Witness for C7: a three-chunk source (2 full 4 MiB buffers plus one
byte), with the flag raised at the second loop check. -/
theorem chunked_copy_cancellation_witness :
    ((fun i => decide (i = 2)) 0 = false) ∧
    ((copyRegularFileChunked (fun i => decide (i = 2)) (2 * 4194304 + 1) (some 5)).2 =
        ChunkRes.canceled →
      (copyRegularFileChunked (fun i => decide (i = 2)) (2 * 4194304 + 1) (some 5)).1 =
        none) := by
  refine ⟨by decide, ?_⟩
  have h := chunked_copy_cancellation (fun i => decide (i = 2)) (2 * 4194304 + 1)
    (some 5) (by decide)
  exact h.1

/-! ## Filesystem trees and MainFrame.cpp::EstimateTotalBytes (lines 283-327)

A local filesystem subtree as the scan and the recursive copy see it:
regular files carry their size; `symlink` and `special` stand for entries
whose `symlink_status` is neither a regular file nor a directory. -/

inductive FsNode where
  | file (size : Nat)
  | dir (children : List FsNode)
  | symlink
  | special

mutual

/-- The entries `fs::recursive_directory_iterator` yields below one node:
each child followed, depth first, by the entries below it. -/
def subEntries : FsNode → List FsNode
  | FsNode.dir cs => subEntriesList cs
  | _ => []

def subEntriesList : List FsNode → List FsNode
  | [] => []
  | c :: rest => c :: (subEntries c ++ subEntriesList rest)

end

mutual

/-- Specification-side total: the sum of the sizes of all regular files
under a node ("the sum of regular-file sizes under all sources"). -/
def sumRegularSizes : FsNode → Nat
  | FsNode.file n => n
  | FsNode.dir cs => sumRegularSizesList cs
  | _ => 0

def sumRegularSizesList : List FsNode → Nat
  | [] => 0
  | c :: rest => sumRegularSizes c + sumRegularSizesList rest

end

/-- `entry.symlink_status` then `is_regular_file` then `file_size`: the
bytes one iterated entry contributes to the estimate. -/
def entrySize : FsNode → Nat
  | FsNode.file n => n
  | _ => 0

/-- One source of a run: its path string and what `symlink_status`
resolves it to (`none`: the status call fails / nothing there). -/
structure SrcItem where
  path : ByteStr
  node : Option FsNode

/-! ## The shared run state (MainFrame.cpp::AsyncFileOpState) -/

/-- Observable actions of a worker, in program order. -/
inductive WEvent where
  | scanPublished (total : Nat)
  | promptExists (dst : ByteStr)
  | promptError (message : ByteStr)
  | promptTrashFailed (message : ByteStr)
  | performOp (move : Bool) (src dst : ByteStr)
  | trashTried (src : ByteStr)
  | deleteTried (src : ByteStr)
  deriving DecidableEq, Repr

/-- `MainFrame.cpp::AsyncFileOpState` as one worker run sees it:
`canceled` is the `cancelRequested` flag (sticky — set by the UI, observed
at a check, or set by the worker itself, never cleared), `checkIdx` counts
the loads of that flag (so an oracle can inject the UI's asynchronous
cancel at any check), `done`/`scanDone`/`totalBytes`/`finished` are the
progress fields, `replyIdx` counts decisions consumed from the mailbox,
`opIdx` counts backend calls, and `events` is the observable trace. -/
structure WState where
  canceled : Bool := false
  checkIdx : Nat := 0
  done : Nat := 0
  replyIdx : Nat := 0
  opIdx : Nat := 0
  scanDone : Bool := false
  totalBytes : Nat := 0
  finished : Bool := false
  fuelOut : Bool := false
  events : List WEvent := []
  deriving DecidableEq, Repr

/-- The value a `cancelRequested.load()` returns: the flag as already set,
or the UI's cancel request arriving at this check (`ui` is the oracle for
the latter, indexed by check count). -/
def cancelSeen (ui : Nat → Bool) (st : WState) : Bool :=
  st.canceled || ui st.checkIdx

/-- State after one load of the cancel flag. -/
def afterCheck (ui : Nat → Bool) (st : WState) : WState :=
  {st with canceled := cancelSeen ui st, checkIdx := st.checkIdx + 1}

/-- Record one observable event. -/
def pushEvent (e : WEvent) (st : WState) : WState :=
  {st with events := st.events ++ [e]}

/-- `MainFrame.cpp::EstimateTotalBytes`, inner loop (lines 301-314): walk
the recursively iterated entries, checking the cancel flag before each
(`break` on cancel) and summing the sizes of regular entries. -/
def scanEntries (ui : Nat → Bool) : List FsNode → WState → Nat × WState
  | [], st => (0, st)
  | e :: rest, st =>
    if cancelSeen ui st then (0, afterCheck ui st)
    else
      let st1 := afterCheck ui st
      let (t, st2) := scanEntries ui rest st1
      (entrySize e + t, st2)

/-- `MainFrame.cpp::EstimateTotalBytes` (lines 283-327): per source, check
the cancel flag (`break` on cancel), skip empty paths and failed status
queries, walk directories with `scanEntries`, and add a regular file's own
size. -/
def estimateTotalBytes (ui : Nat → Bool) : List SrcItem → WState → Nat × WState
  | [], st => (0, st)
  | s :: rest, st =>
    if cancelSeen ui st then (0, afterCheck ui st)
    else
      let st1 := afterCheck ui st
      if s.path = [] then estimateTotalBytes ui rest st1
      else
        match s.node with
        | none => estimateTotalBytes ui rest st1
        | some (FsNode.dir cs) =>
          let (t1, st2) := scanEntries ui (subEntriesList cs) st1
          let (t2, st3) := estimateTotalBytes ui rest st2
          (t1 + t2, st3)
        | some (FsNode.file n) =>
          let (t2, st2) := estimateTotalBytes ui rest st1
          (n + t2, st2)
        | some _ => estimateTotalBytes ui rest st1

/-! ## The copy/move worker (MainFrame.cpp lines 1458-1591) -/

/-- `MainFrame.cpp::ExistsChoice` (line 214). -/
inductive ExistsChoice where
  | overwrite
  | skip
  | rename
  | cancel
  deriving DecidableEq, Repr

/-- `MainFrame.cpp::TrashFailChoice` (line 246). -/
inductive TrashFailChoice where
  | deletePermanent
  | skip
  | cancel
  deriving DecidableEq, Repr

/-- `MainFrame.cpp::AsyncFileOpReply` (lines 248-258). -/
structure AsyncFileOpReply where
  existsChoice : ExistsChoice := ExistsChoice.cancel
  renameTo : Option ByteStr := none
  continueAfterError : Bool := false
  trashFailChoice : TrashFailChoice := TrashFailChoice.cancel
  deriving DecidableEq, Repr

/-- The environment one copy/move worker runs against: the UI's cancel
requests (by check index), `PathExistsAny` answers, the decisions the
controller deposits (by consumption order), and the results of the
successive `MovePath`/`CopyPathRecursive` backend calls. -/
structure CMEnv where
  uiCancel : Nat → Bool
  pathExists : ByteStr → Bool
  reply : Nat → AsyncFileOpReply
  opRes : Nat → OpResult

/-- `fs::path::filename()` for the paths the engine meets: the suffix
after the last `/` (empty when the path ends in `/`). -/
def filenameOf (p : ByteStr) : ByteStr :=
  (p.reverse.takeWhile (fun c => c ≠ 47)).reverse

/-- How one pass of the conflict loop ends. -/
inductive ConflictOut where
  | proceed (dst : ByteStr)
  | skipItem
  | stop
  | fuelOut
  deriving DecidableEq, Repr

/-- The state after one pass of the conflict loop has raised its prompt
(`pushEvent`) and woken from the wait (one more flag load). -/
def conflictPromptState (env : CMEnv) (dst : ByteStr) (st : WState) : WState :=
  afterCheck env.uiCancel (pushEvent (WEvent.promptExists dst) (afterCheck env.uiCancel st))

/-- The state after the deposited reply has additionally been consumed. -/
def conflictReplyState (env : CMEnv) (dst : ByteStr) (st : WState) : WState :=
  {conflictPromptState env dst st with
    replyIdx := (conflictPromptState env dst st).replyIdx + 1}

/-- The conflict loop of `CopyMoveWithProgressInternal` (lines 1509-1541):
while the destination exists, raise an `Exists` prompt and block on the
mailbox; `Skip` marks the item skipped, `Cancel` (and a `Rename` with no
name) sets the cancel flag, `Rename name` recomputes the destination as
`JoinDirAndNameAny(dstDir, name)` and loops, `Overwrite` proceeds.  Each
pass loads the cancel flag before the existence test and again when the
wait wakes.  `fuel` bounds the model's recursion only — the C++ loop is
unbounded; `fuelOut` marks a run that hit the bound. -/
def conflictLoop (env : CMEnv) (dstDir : ByteStr) :
    Nat → ByteStr → WState → ConflictOut × WState
  | 0, _, st => (ConflictOut.fuelOut, {st with fuelOut := true})
  | fuel + 1, dst, st =>
    if cancelSeen env.uiCancel st then (ConflictOut.stop, afterCheck env.uiCancel st)
    else
      let st1 := afterCheck env.uiCancel st
      if env.pathExists dst = false then (ConflictOut.proceed dst, st1)
      else
        let st2 := pushEvent (WEvent.promptExists dst) st1
        if cancelSeen env.uiCancel st2 then (ConflictOut.stop, afterCheck env.uiCancel st2)
        else
          let r := env.reply (conflictPromptState env dst st).replyIdx
          let st4 := conflictReplyState env dst st
          match r.existsChoice with
          | ExistsChoice.skip => (ConflictOut.skipItem, st4)
          | ExistsChoice.cancel => (ConflictOut.stop, {st4 with canceled := true})
          | ExistsChoice.rename =>
            match r.renameTo with
            | none => (ConflictOut.stop, {st4 with canceled := true})
            | some name =>
              conflictLoop env dstDir fuel (joinDirAndNameAny dstDir name) st4
          | ExistsChoice.overwrite => (ConflictOut.proceed dst, st4)

/-- One iteration of the transfer loop of `CopyMoveWithProgressInternal`
(lines 1487-1586) for source `src`: cancel check (`break`), empty and
nonexistent sources counted done and skipped, destination computed as
`JoinDirAndNameAny(dstDir, src.filename())`, the conflict loop, a cancel
check after it, skipped items counted done, then the backend call, the
mid-operation-cancel break (line 1565), and the error prompt with
continue-or-cancel.  Returns whether the loop continues with the next
source, and the updated state. -/
def performState (env : CMEnv) (move : Bool) (src dst : ByteStr) (st2 : WState) :
    WState :=
  pushEvent (WEvent.performOp move src dst)
    {(afterCheck env.uiCancel st2) with opIdx := st2.opIdx + 1}

def processOneSource (env : CMEnv) (move : Bool) (dstDir : ByteStr) (fuel : Nat)
    (src : ByteStr) (st : WState) : Bool × WState :=
  if cancelSeen env.uiCancel st then (false, afterCheck env.uiCancel st)
  else
    let st1 := afterCheck env.uiCancel st
    if src = [] then (true, {st1 with done := st1.done + 1})
    else if env.pathExists src = false then (true, {st1 with done := st1.done + 1})
    else
      match conflictLoop env dstDir fuel (joinDirAndNameAny dstDir (filenameOf src)) st1 with
      | (ConflictOut.fuelOut, st2) => (false, st2)
      | (ConflictOut.stop, st2) => (false, st2)
      | (ConflictOut.skipItem, st2) =>
        if cancelSeen env.uiCancel st2 then (false, afterCheck env.uiCancel st2)
        else (true, {(afterCheck env.uiCancel st2) with
                      done := (afterCheck env.uiCancel st2).done + 1})
      | (ConflictOut.proceed dst, st2) =>
        if cancelSeen env.uiCancel st2 then (false, afterCheck env.uiCancel st2)
        else
          let res := env.opRes st2.opIdx
          let st5 := afterCheck env.uiCancel (performState env move src dst st2)
          if cancelSeen env.uiCancel (performState env move src dst st2) = true ∧
              res.ok = false ∧ res.message = canceledResult.message then
            (false, st5)
          else if res.ok = false then
            let st6 := pushEvent (WEvent.promptError res.message) st5
            if cancelSeen env.uiCancel st6 then (false, afterCheck env.uiCancel st6)
            else
              let st7 := afterCheck env.uiCancel st6
              let r := env.reply st7.replyIdx
              let st8 := {st7 with replyIdx := st7.replyIdx + 1}
              if r.continueAfterError = false then (false, {st8 with canceled := true})
              else (true, {st8 with done := st8.done + 1})
          else (true, {st5 with done := st5.done + 1})

/-- The transfer loop over all sources (`for (const auto& src : sources)`). -/
def runTransfer (env : CMEnv) (move : Bool) (dstDir : ByteStr) (fuel : Nat) :
    List ByteStr → WState → WState
  | [], st => st
  | src :: rest, st =>
    match processOneSource env move dstDir fuel src st with
    | (true, st1) => runTransfer env move dstDir fuel rest st1
    | (false, st1) => st1

/-- The scan decision and run (lines 1469-1478): the estimate walk runs
only when no source path looks like a URI; otherwise the total stays 0
("unknown"). -/
def scanResult (env : CMEnv) (sources : List SrcItem) : Nat × WState :=
  if sources.all (fun s => !(looksLikeUriPath s.path)) then
    estimateTotalBytes env.uiCancel sources {}
  else (0, ({} : WState))

/-- Lines 1479-1485: `scanDone` and the total published under the lock,
before the transfer loop starts. -/
def scanPublishedState (env : CMEnv) (sources : List SrcItem) : WState :=
  pushEvent (WEvent.scanPublished (scanResult env sources).1)
    {(scanResult env sources).2 with scanDone := true, totalBytes := (scanResult env sources).1}

/-- The whole copy/move worker body (lines 1458-1591): decide whether the
scan can run (skipped entirely when any source path looks like a URI),
run it, publish `scanDone` and the total, run the transfer loop, then set
`finished`. -/
def runCopyMoveWorker (env : CMEnv) (move : Bool) (sources : List SrcItem)
    (dstDir : ByteStr) (fuel : Nat) : WState :=
  {(runTransfer env move dstDir fuel (sources.map (fun s => s.path))
      (scanPublishedState env sources)) with finished := true}

/-! ## The delete worker (MainFrame.cpp lines 2235-2275) and the trash
worker (lines 1910-1976) -/

/-- Environment of the delete and trash workers: UI cancel requests, the
results of successive backend calls (`DeletePath`/`TrashPath`, in call
order), and the decisions the controller deposits. -/
structure DTEnv where
  uiCancel : Nat → Bool
  opRes : Nat → OpResult
  reply : Nat → AsyncFileOpReply

/-- State after the delete worker has called `DeletePath(src)` (one more
backend call, the event recorded). -/
def deleteAttemptState (env : DTEnv) (src : ByteStr) (st : WState) : WState :=
  pushEvent (WEvent.deleteTried src)
    {(afterCheck env.uiCancel st) with opIdx := st.opIdx + 1}

/-- State after the failed delete's `Error` prompt has been raised. -/
def deletePromptState (env : DTEnv) (src : ByteStr) (st : WState) : WState :=
  pushEvent (WEvent.promptError (env.opRes st.opIdx).message)
    (deleteAttemptState env src st)

/-- The failed-delete tail of the loop body (lines 2250-2267): `Error`
prompt, wait (one more flag load; a cancel seen there stops the run), and
the consumed reply — "don't continue" sets the cancel flag and stops,
otherwise the item is counted done. -/
def deleteErrorFlow (env : DTEnv) (src : ByteStr) (st : WState) : Bool × WState :=
  if cancelSeen env.uiCancel (deletePromptState env src st) then
    (false, afterCheck env.uiCancel (deletePromptState env src st))
  else if (env.reply st.replyIdx).continueAfterError = false then
    (false, {(afterCheck env.uiCancel (deletePromptState env src st)) with
      replyIdx := st.replyIdx + 1, canceled := true})
  else
    (true, {(afterCheck env.uiCancel (deletePromptState env src st)) with
      replyIdx := st.replyIdx + 1, done := st.done + 1})

/-- One iteration of `DeleteWithProgressInternal`'s worker loop (lines
2236-2270): cancel check, empty source counted done, `DeletePath`, on
failure an `Error` prompt whose "don't continue" answer cancels the run,
otherwise the item is counted done. -/
def processDeleteSource (env : DTEnv) (src : ByteStr) (st : WState) : Bool × WState :=
  if cancelSeen env.uiCancel st then (false, afterCheck env.uiCancel st)
  else if src = [] then
    (true, {(afterCheck env.uiCancel st) with done := st.done + 1})
  else if (env.opRes st.opIdx).ok = false then
    deleteErrorFlow env src st
  else (true, {(deleteAttemptState env src st) with done := st.done + 1})

/-- The delete worker's loop over all sources. -/
def runDeleteLoop (env : DTEnv) : List ByteStr → WState → WState
  | [], st => st
  | src :: rest, st =>
    match processDeleteSource env src st with
    | (true, st1) => runDeleteLoop env rest st1
    | (false, st1) => st1

/-- One iteration of `TrashWithProgressInternal`'s worker loop (lines
1912-1971): cancel check, empty source counted done, `TrashPath`; on a
trash failure a `TrashFailed` prompt — `Skip` counts the item done and
continues, `Cancel` sets the cancel flag and stops; only the
delete-permanently answer runs `DeletePath(src)`, whose own failure
raises a second, `Error`, prompt with continue-or-cancel. -/
def trashAttemptState (env : DTEnv) (src : ByteStr) (st : WState) : WState :=
  pushEvent (WEvent.trashTried src)
    {(afterCheck env.uiCancel st) with opIdx := st.opIdx + 1}

/-- State after the `TrashFailed` prompt has been raised. -/
def trashFailPromptState (env : DTEnv) (src : ByteStr) (st : WState) : WState :=
  pushEvent (WEvent.promptTrashFailed (env.opRes st.opIdx).message)
    (trashAttemptState env src st)

/-- State once the wait woke (one more flag load) and the `TrashFailed`
reply was consumed. -/
def trashReplyState (env : DTEnv) (src : ByteStr) (st : WState) : WState :=
  {(afterCheck env.uiCancel (trashFailPromptState env src st)) with
    replyIdx := st.replyIdx + 1}

/-- State after the delete-permanently choice has run `DeletePath(src)`
(the run's second backend call for this item). -/
def trashDeleteState (env : DTEnv) (src : ByteStr) (st : WState) : WState :=
  pushEvent (WEvent.deleteTried src)
    {(trashReplyState env src st) with opIdx := st.opIdx + 2}

/-- State after the failed permanent delete raised its `Error` prompt. -/
def trashDeleteErrState (env : DTEnv) (src : ByteStr) (st : WState) : WState :=
  pushEvent (WEvent.promptError (env.opRes (st.opIdx + 1)).message)
    (trashDeleteState env src st)

/-- The delete-permanently tail (lines 1949-1967): `DeletePath(src)`; on
its failure a second, `Error`, prompt — wait, then "don't continue"
cancels the run, continue counts the item done. -/
def trashDeleteFlow (env : DTEnv) (src : ByteStr) (st : WState) : Bool × WState :=
  if (env.opRes (st.opIdx + 1)).ok = false then
    if cancelSeen env.uiCancel (trashDeleteErrState env src st) then
      (false, afterCheck env.uiCancel (trashDeleteErrState env src st))
    else if (env.reply (st.replyIdx + 1)).continueAfterError = false then
      (false, {(afterCheck env.uiCancel (trashDeleteErrState env src st)) with
        replyIdx := st.replyIdx + 2, canceled := true})
    else
      (true, {(afterCheck env.uiCancel (trashDeleteErrState env src st)) with
        replyIdx := st.replyIdx + 2, done := st.done + 1})
  else (true, {(trashDeleteState env src st) with done := st.done + 1})

/-- The failed-trash tail of the loop body (lines 1926-1968):
`TrashFailed` prompt, wait (a cancel seen there stops the run), then the
consumed choice — `Skip` counts the item done and continues, `Cancel`
sets the cancel flag and stops, and only `DeletePermanent` goes on to
`DeletePath`. -/
def trashFailFlow (env : DTEnv) (src : ByteStr) (st : WState) : Bool × WState :=
  if cancelSeen env.uiCancel (trashFailPromptState env src st) then
    (false, afterCheck env.uiCancel (trashFailPromptState env src st))
  else
    match (env.reply st.replyIdx).trashFailChoice with
    | TrashFailChoice.skip =>
      (true, {(trashReplyState env src st) with done := st.done + 1})
    | TrashFailChoice.cancel =>
      (false, {(trashReplyState env src st) with canceled := true})
    | TrashFailChoice.deletePermanent => trashDeleteFlow env src st

def processTrashSource (env : DTEnv) (src : ByteStr) (st : WState) : Bool × WState :=
  if cancelSeen env.uiCancel st then (false, afterCheck env.uiCancel st)
  else if src = [] then
    (true, {(afterCheck env.uiCancel st) with done := st.done + 1})
  else if (env.opRes st.opIdx).ok = false then
    trashFailFlow env src st
  else (true, {(trashAttemptState env src st) with done := st.done + 1})

/-- The trash worker's loop over all sources. -/
def runTrashLoop (env : DTEnv) : List ByteStr → WState → WState
  | [], st => st
  | src :: rest, st =>
    match processTrashSource env src st with
    | (true, st1) => runTrashLoop env rest st1
    | (false, st1) => st1

/-! ## util.cpp: TrashPath (lines 769-827, the GIO build) -/

/-- `std::tolower` per byte, for the ASCII range the engine's schemes use. -/
def toLowerByte (c : Nat) : Nat := if 65 ≤ c ∧ c ≤ 90 then c + 32 else c

/-- `srcStr.substr(0, pos)` of the `"://"` position, lowercased (empty
when `"://"` does not occur). -/
def schemeLowerOf (s : ByteStr) : ByteStr :=
  match findUriSep s with
  | some p => (s.take p).map toLowerByte
  | none => []

/-- `"file"`. -/
def fileSchemeBytes : ByteStr := [102, 105, 108, 101]

/-- `"Trash is not supported for remote connections."`. -/
def trashUnsupportedMsg : ByteStr :=
  [84, 114, 97, 115, 104, 32, 105, 115, 32, 110, 111, 116, 32, 115, 117, 112, 112,
   111, 114, 116, 101, 100, 32, 102, 111, 114, 32, 114, 101, 109, 111, 116, 101, 32,
   99, 111, 110, 110, 101, 99, 116, 105, 111, 110, 115, 46]

/-- `util.cpp::TrashPath` (lines 769-827), GIO build: an entry cancel
check; then, for a URI-looking source, the scheme before `"://"` is
lowercased and any nonempty scheme other than `file` fails fast with the
"not supported" message — before `g_file_trash` is ever called.
Otherwise `g_file_trash` runs, with outcome given by the `gio` oracle.
The second component records whether `g_file_trash` was attempted.  (The
non-GIO fallback build shells out to the `gio trash` command instead.) -/
def trashPath (cancel0 : Bool) (gio : ByteStr → OpResult) (src : ByteStr) :
    OpResult × Bool :=
  if cancel0 then (canceledResult, false)
  else if looksLikeUriString src then
    if schemeLowerOf src ≠ [] ∧ schemeLowerOf src ≠ fileSchemeBytes then
      ({ok := false, message := trashUnsupportedMsg}, false)
    else (gio src, true)
  else (gio src, true)

/-! ## util.cpp: the destination-inside-source guard of
CopyPathRecursiveImpl (lines 486-502) -/

/-- `"Destination is inside the source folder."`. -/
def insideSourceMsg : ByteStr :=
  [68, 101, 115, 116, 105, 110, 97, 116, 105, 111, 110, 32, 105, 115, 32, 105, 110,
   115, 105, 100, 101, 32, 116, 104, 101, 32, 115, 111, 117, 114, 99, 101, 32, 102,
   111, 108, 100, 101, 114, 46]

/-- Lines 498-499: the canonicalized destination is strictly longer than
the canonicalized source, starts with it, and the next byte is a path
separator (`/` or `\`). -/
def destInsideSource (srcC dstC : ByteStr) : Bool :=
  decide (srcC.length < dstC.length) &&
  decide (dstC.take srcC.length = srcC) &&
  (dstC.get? srcC.length == some 47 || dstC.get? srcC.length == some 92)

/-- The front of `util.cpp::CopyPathRecursiveImpl` (lines 471-504), local
branch: both paths are canonicalized (`fs::weakly_canonical`, whose
outcome the `canon` oracle gives, `none` on error); when both succeed and
the destination lies inside the source, the copy fails with the
inside-source message and zero bytes written, before the body (the cancel
check, status query and recursive walk of lines 504-597, abstracted here
as `body`, an `OpResult` and the bytes it would write) is reached.  A
failed canonicalization skips the guard.  (The URI branch of lines
478-484 dispatches to GIO before this guard and never reaches it.) -/
def copyPathRecursiveLocal (canon : ByteStr → Option ByteStr)
    (src dst : ByteStr) (body : OpResult × Nat) : OpResult × Nat :=
  match canon src, canon dst with
  | some srcC, some dstC =>
    if destInsideSource srcC dstC then
      ({ok := false, message := insideSourceMsg}, 0)
    else body
  | _, _ => body

/-! ## The operation queue controller (MainFrame.cpp lines 1269-1305,
1716-1730, 2589-2615 and the analogous trash/delete/extract starters) -/

/-- A submission: `payload` identifies it; `valid` is whether its
pre-flight checks pass (non-empty source list, and for copy/move an
existing destination directory — lines 1274-1279).  An invalid
submission returns before reaching the queue logic. -/
structure OpReq where
  payload : Nat
  valid : Bool
  deriving DecidableEq, Repr

/-- `MainFrame::QueuedOp`: a queue entry carrying the id `EnqueueOp`
assigned. -/
structure QueuedOp where
  id : Nat
  req : OpReq
  deriving DecidableEq, Repr

/-- The controller's state: `fileOp_` (the active run), `opQueue_`,
`nextOpId_`, plus a ghost trace of the runs started, in start order. -/
structure Ctl where
  active : Option OpReq := none
  queue : List QueuedOp := []
  nextOpId : Nat := 1
  started : List OpReq := []
  deriving DecidableEq, Repr

/-- `MainFrame::EnqueueOp` (lines 2589-2593): assign the next id,
`push_back`. -/
def enqueueOp (c : Ctl) (req : OpReq) : Ctl :=
  {c with queue := c.queue ++ [{id := c.nextOpId, req := req}],
          nextOpId := c.nextOpId + 1}

/-- A submission (`CopyMoveWithProgressInternal` lines 1269-1305; the
trash, delete and extract starters behave alike): a failed pre-flight
returns at once; with a run active, the request is appended to the queue
with no further prompting; otherwise the run starts immediately. -/
def submitOp (c : Ctl) (req : OpReq) : Ctl :=
  if req.valid = false then c
  else if c.active.isSome then enqueueOp c req
  else {c with active := some req, started := c.started ++ [req]}

/-- `MainFrame::StartNextQueuedOp` (lines 2595-2615): with no run active
and a non-empty queue, pop the front entry and hand it to the matching
start function — which starts it, or returns without starting anything
when that entry's own pre-flight now fails. -/
def startNextQueuedOp (c : Ctl) : Ctl :=
  if c.active.isSome then c
  else
    match c.queue with
    | [] => c
    | q :: rest =>
      if q.req.valid = false then {c with queue := rest}
      else {c with queue := rest, active := some q.req,
                   started := c.started ++ [q.req]}

/-- The run-completion handler (timer callback, lines 1716-1729; the
delete, trash and extract dialogs at 2043-2055, 2329-2341, 2571-2583 are
identical): when `finished` is observed the timer is stopped first (so
this runs once per completion), the worker joined, `fileOp_` destroyed,
and `StartNextQueuedOp` called. -/
def completeRun (c : Ctl) : Ctl :=
  match c.active with
  | none => c
  | some _ => startNextQueuedOp {c with active := none}

/-- An external controller event: a user submission, or the active run
completing (finished or canceled). -/
inductive CEvent where
  | submit (req : OpReq)
  | complete
  deriving DecidableEq, Repr

def ctlStep (c : Ctl) : CEvent → Ctl
  | CEvent.submit req => submitOp c req
  | CEvent.complete => completeRun c

/-- The controller driven from a state by a sequence of events. -/
def ctlSteps (c : Ctl) (es : List CEvent) : Ctl := es.foldl ctlStep c

theorem ctlSteps_def (c : Ctl) (es : List CEvent) :
    List.foldl ctlStep c es = ctlSteps c es := rfl

/-- Queue entries numbered from `n`, as successive `EnqueueOp` calls
produce them. -/
def numberFrom (n : Nat) : List OpReq → List QueuedOp
  | [] => []
  | r :: rest => {id := n, req := r} :: numberFrom (n + 1) rest

/-! ## Claim C1: single active run, FIFO queue -/

theorem numberFrom_map_req (rs : List OpReq) :
    ∀ n, (numberFrom n rs).map (fun q => q.req) = rs := by
  induction rs with
  | nil => intro n; rfl
  | cons r rest ih => intro n; simp [numberFrom, ih]

theorem numberFrom_length (rs : List OpReq) :
    ∀ n, (numberFrom n rs).length = rs.length := by
  induction rs with
  | nil => intro n; rfl
  | cons r rest ih => intro n; simp [numberFrom, ih]

theorem mem_numberFrom_req (rs : List OpReq) :
    ∀ n q, q ∈ numberFrom n rs → q.req ∈ rs := by
  induction rs with
  | nil => intro n q h; exact absurd h (by simp [numberFrom])
  | cons r rest ih =>
    intro n q h
    rw [numberFrom] at h
    rcases List.mem_cons.mp h with h1 | h2
    · rw [h1]; exact List.mem_cons_self _ _
    · exact List.mem_cons_of_mem _ (ih (n + 1) q h2)

theorem ctlSteps_submit_phase (rs : List OpReq) :
    ∀ (a : OpReq) (qs : List QueuedOp) (n : Nat) (s : List OpReq),
      (∀ r ∈ rs, r.valid = true) →
      ctlSteps {active := some a, queue := qs, nextOpId := n, started := s}
          (rs.map CEvent.submit) =
        {active := some a, queue := qs ++ numberFrom n rs,
         nextOpId := n + rs.length, started := s} := by
  induction rs with
  | nil =>
    intro a qs n s _
    simp [ctlSteps, numberFrom]
  | cons r rest ih =>
    intro a qs n s hv
    have hr : r.valid = true := hv r (List.mem_cons_self _ _)
    have hstep : ctlStep ⟨some a, qs, n, s⟩ (CEvent.submit r) =
        (⟨some a, qs ++ [⟨n, r⟩], n + 1, s⟩ : Ctl) := by
      simp [ctlStep, submitOp, hr, enqueueOp]
    rw [List.map_cons, ctlSteps, List.foldl_cons, hstep, ctlSteps_def]
    have h2 := ih a (qs ++ [(⟨n, r⟩ : QueuedOp)]) (n + 1) s
      (fun x hx => hv x (List.mem_cons_of_mem _ hx))
    rw [h2]
    simp only [numberFrom, List.append_assoc, List.length_cons,
      List.singleton_append, Ctl.mk.injEq, and_true, true_and]
    omega

theorem ctlSteps_complete_phase (qs : List QueuedOp) :
    ∀ (a : OpReq) (n : Nat) (s : List OpReq),
      (∀ q ∈ qs, q.req.valid = true) →
      ctlSteps {active := some a, queue := qs, nextOpId := n, started := s}
          (List.replicate (qs.length + 1) CEvent.complete) =
        {active := none, queue := [], nextOpId := n,
         started := s ++ qs.map (fun q => q.req)} := by
  induction qs with
  | nil =>
    intro a n s _
    simp only [List.length_nil, Nat.zero_add, List.replicate_one, ctlSteps,
      List.foldl_cons, List.foldl_nil, List.map_nil, List.append_nil]
    rfl
  | cons q rest ih =>
    intro a n s hv
    have h1 : ctlStep ⟨some a, q :: rest, n, s⟩ CEvent.complete =
        (⟨some q.req, rest, n, s ++ [q.req]⟩ : Ctl) := by
      rw [show ctlStep ⟨some a, q :: rest, n, s⟩ CEvent.complete =
        completeRun ⟨some a, q :: rest, n, s⟩ from rfl, completeRun]
      simp [startNextQueuedOp, hv q (List.mem_cons_self _ _)]
    rw [show (q :: rest).length + 1 = (rest.length + 1) + 1 from by simp,
      List.replicate_succ, ctlSteps, List.foldl_cons, h1, ctlSteps_def]
    rw [ih q.req n (s ++ [q.req]) (fun x hx => hv x (List.mem_cons_of_mem _ hx))]
    simp [List.append_assoc]

/-- C1: at most one run is active at any instant (the controller holds a
single `fileOp_` slot): a submission made while a run is active is
appended to the queue, unchanged active run; every completion of the
active run dequeues the queue's front and starts it exactly once (or just
clears the active slot when the queue is empty); and a burst of N valid
submissions followed by the N completions starts every submission exactly
once, in FIFO order. -/
theorem single_active_run_fifo_queue :
    (∀ (c : Ctl) (req : OpReq), req.valid = true → c.active.isSome = true →
      (submitOp c req).active = c.active ∧
      (submitOp c req).queue = c.queue ++ [{id := c.nextOpId, req := req}] ∧
      (submitOp c req).started = c.started) ∧
    (∀ (c : Ctl) (a : OpReq) (q : QueuedOp) (rest : List QueuedOp),
      c.active = some a → c.queue = q :: rest → q.req.valid = true →
      completeRun c = {c with active := some q.req, queue := rest,
                              started := c.started ++ [q.req]}) ∧
    (∀ (c : Ctl) (a : OpReq), c.active = some a → c.queue = [] →
      completeRun c = {c with active := none}) ∧
    (∀ (r : OpReq) (rs : List OpReq), (∀ x ∈ r :: rs, x.valid = true) →
      (ctlSteps {} ((r :: rs).map CEvent.submit ++
          List.replicate (r :: rs).length CEvent.complete)).started = r :: rs ∧
      (ctlSteps {} ((r :: rs).map CEvent.submit ++
          List.replicate (r :: rs).length CEvent.complete)).active = none ∧
      (ctlSteps {} ((r :: rs).map CEvent.submit ++
          List.replicate (r :: rs).length CEvent.complete)).queue = []) := by
  refine ⟨?_, ?_, ?_, ?_⟩
  · intro c req hv ha
    simp [submitOp, hv, ha, enqueueOp]
  · intro c a q rest ha hq hv
    rw [completeRun, ha, startNextQueuedOp]
    simp [hq, hv]
  · intro c a ha hq
    rw [completeRun, ha, startNextQueuedOp]
    simp [hq]
  · intro r rs hv
    have hr : r.valid = true := hv r (List.mem_cons_self _ _)
    have hsub1 : ctlStep {} (CEvent.submit r) =
        ({active := some r, queue := [], nextOpId := 1, started := [r]} : Ctl) := by
      simp [ctlStep, submitOp, hr]
    have hlen : (r :: rs).length = ([] ++ numberFrom 1 rs).length + 1 := by
      simp [numberFrom_length]
    rw [List.map_cons, List.cons_append, ctlSteps, List.foldl_cons, hsub1,
      List.foldl_append, ctlSteps_def, ctlSteps_def,
      ctlSteps_submit_phase rs r [] 1 [r]
        (fun x hx => hv x (List.mem_cons_of_mem _ hx)),
      hlen,
      ctlSteps_complete_phase ([] ++ numberFrom 1 rs) r (1 + rs.length) [r]
        (fun q hq => hv q.req (List.mem_cons_of_mem _
          (mem_numberFrom_req rs 1 q (by simpa using hq))))]
    refine ⟨?_, rfl, rfl⟩
    simp [numberFrom_map_req]

/-! ## Projection lemmas for the run state -/

@[simp] theorem afterCheck_done (ui : Nat → Bool) (st : WState) :
    (afterCheck ui st).done = st.done := rfl

@[simp] theorem afterCheck_events (ui : Nat → Bool) (st : WState) :
    (afterCheck ui st).events = st.events := rfl

@[simp] theorem afterCheck_fuelOut (ui : Nat → Bool) (st : WState) :
    (afterCheck ui st).fuelOut = st.fuelOut := rfl

@[simp] theorem afterCheck_scanDone (ui : Nat → Bool) (st : WState) :
    (afterCheck ui st).scanDone = st.scanDone := rfl

@[simp] theorem afterCheck_totalBytes (ui : Nat → Bool) (st : WState) :
    (afterCheck ui st).totalBytes = st.totalBytes := rfl

@[simp] theorem afterCheck_canceled (ui : Nat → Bool) (st : WState) :
    (afterCheck ui st).canceled = cancelSeen ui st := rfl

@[simp] theorem pushEvent_done (e : WEvent) (st : WState) :
    (pushEvent e st).done = st.done := rfl

@[simp] theorem pushEvent_events (e : WEvent) (st : WState) :
    (pushEvent e st).events = st.events ++ [e] := rfl

@[simp] theorem pushEvent_fuelOut (e : WEvent) (st : WState) :
    (pushEvent e st).fuelOut = st.fuelOut := rfl

@[simp] theorem pushEvent_scanDone (e : WEvent) (st : WState) :
    (pushEvent e st).scanDone = st.scanDone := rfl

@[simp] theorem pushEvent_totalBytes (e : WEvent) (st : WState) :
    (pushEvent e st).totalBytes = st.totalBytes := rfl

@[simp] theorem pushEvent_canceled (e : WEvent) (st : WState) :
    (pushEvent e st).canceled = st.canceled := rfl

@[simp] theorem conflictReplyState_done (env : CMEnv) (dst : ByteStr) (st : WState) :
    (conflictReplyState env dst st).done = st.done := rfl

@[simp] theorem conflictReplyState_events (env : CMEnv) (dst : ByteStr) (st : WState) :
    (conflictReplyState env dst st).events = st.events ++ [WEvent.promptExists dst] := rfl

@[simp] theorem conflictReplyState_fuelOut (env : CMEnv) (dst : ByteStr) (st : WState) :
    (conflictReplyState env dst st).fuelOut = st.fuelOut := rfl

@[simp] theorem conflictReplyState_scanDone (env : CMEnv) (dst : ByteStr) (st : WState) :
    (conflictReplyState env dst st).scanDone = st.scanDone := rfl

@[simp] theorem conflictReplyState_totalBytes (env : CMEnv) (dst : ByteStr) (st : WState) :
    (conflictReplyState env dst st).totalBytes = st.totalBytes := rfl

theorem conflictReplyState_canceled (env : CMEnv) (dst : ByteStr) (st : WState) :
    (conflictReplyState env dst st).canceled =
      cancelSeen env.uiCancel (pushEvent (WEvent.promptExists dst)
        (afterCheck env.uiCancel st)) := rfl

@[simp] theorem conflictPromptState_replyIdx (env : CMEnv) (dst : ByteStr)
    (st : WState) : (conflictPromptState env dst st).replyIdx = st.replyIdx := rfl

@[simp] theorem conflictReplyState_replyIdx (env : CMEnv) (dst : ByteStr)
    (st : WState) : (conflictReplyState env dst st).replyIdx = st.replyIdx + 1 := rfl

/-! ## Properties of the conflict loop -/

theorem conflictLoop_props (env : CMEnv) (dstDir : ByteStr) :
    ∀ (fuel : Nat) (dst : ByteStr) (st : WState),
      ((conflictLoop env dstDir fuel dst st).2.done = st.done) ∧
      ((conflictLoop env dstDir fuel dst st).2.scanDone = st.scanDone) ∧
      ((conflictLoop env dstDir fuel dst st).2.totalBytes = st.totalBytes) ∧
      (∃ l, (conflictLoop env dstDir fuel dst st).2.events = st.events ++ l ∧
        ∀ e ∈ l, ∃ d, e = WEvent.promptExists d) ∧
      ((conflictLoop env dstDir fuel dst st).1 = ConflictOut.stop →
        (conflictLoop env dstDir fuel dst st).2.canceled = true) ∧
      ((conflictLoop env dstDir fuel dst st).1 = ConflictOut.fuelOut →
        (conflictLoop env dstDir fuel dst st).2.fuelOut = true) ∧
      ((conflictLoop env dstDir fuel dst st).1 ≠ ConflictOut.fuelOut →
        (conflictLoop env dstDir fuel dst st).2.fuelOut = st.fuelOut) := by
  intro fuel
  induction fuel with
  | zero =>
    intro dst st
    refine ⟨rfl, rfl, rfl, ⟨[], by simp [conflictLoop], by simp⟩, ?_, ?_, ?_⟩
    · intro h; exact absurd h (by simp [conflictLoop])
    · intro _; rfl
    · intro h; exact absurd rfl h
  | succ fuel ih =>
    intro dst st
    rw [conflictLoop]
    by_cases hc : cancelSeen env.uiCancel st = true
    · simp only [hc, if_true]
      refine ⟨rfl, rfl, rfl, ⟨[], by simp, by simp⟩, ?_, ?_, ?_⟩
      · intro _; simp [hc]
      · intro h; exact absurd h (by simp)
      · intro _; rfl
    · rw [if_neg hc]
      by_cases he : env.pathExists dst = false
      · rw [if_pos he]
        refine ⟨rfl, rfl, rfl, ⟨[], by simp, by simp⟩, ?_, ?_, ?_⟩
        · intro h; exact absurd h (by simp)
        · intro h; exact absurd h (by simp)
        · intro _; rfl
      · rw [if_neg he]
        by_cases hc2 : cancelSeen env.uiCancel
            (pushEvent (WEvent.promptExists dst) (afterCheck env.uiCancel st)) = true
        · simp only [hc2, if_true]
          refine ⟨rfl, rfl, rfl,
            ⟨[WEvent.promptExists dst], by simp, by simp⟩, ?_, ?_, ?_⟩
          · intro _; simp [hc2]
          · intro h; exact absurd h (by simp)
          · intro _; rfl
        · rw [if_neg hc2]
          cases hr : (env.reply (conflictPromptState env dst st).replyIdx).existsChoice
          all_goals simp only [hr]
          · -- overwrite
            refine ⟨by simp, by simp, by simp,
              ⟨[WEvent.promptExists dst], by simp, by simp⟩, ?_, ?_, ?_⟩
            · intro h; exact absurd h (by simp)
            · intro h; exact absurd h (by simp)
            · intro _; simp
          · -- skip
            refine ⟨by simp, by simp, by simp,
              ⟨[WEvent.promptExists dst], by simp, by simp⟩, ?_, ?_, ?_⟩
            · intro h; exact absurd h (by simp)
            · intro h; exact absurd h (by simp)
            · intro _; simp
          · -- rename
            cases hn : (env.reply (conflictPromptState env dst st).replyIdx).renameTo
            all_goals simp only [hn]
            · refine ⟨by simp, by simp, by simp,
                ⟨[WEvent.promptExists dst], by simp, by simp⟩, ?_, ?_, ?_⟩
              · intro _; trivial
              · intro h; exact absurd h (by simp)
              · intro _; simp
            · rename_i name
              obtain ⟨hd, hs, ht, ⟨l, hl, hlp⟩, hstop, hfo, hnfo⟩ :=
                ih (joinDirAndNameAny dstDir name) (conflictReplyState env dst st)
              refine ⟨by simpa using hd, by simpa using hs, by simpa using ht,
                ⟨WEvent.promptExists dst :: l, ?_, ?_⟩, hstop, hfo, fun h => by
                  simpa using hnfo h⟩
              · rw [hl]; simp
              · intro e hme
                rcases List.mem_cons.mp hme with h1 | h2
                · exact ⟨dst, h1⟩
                · exact hlp e h2
          · -- cancel
            refine ⟨by simp, by simp, by simp,
              ⟨[WEvent.promptExists dst], by simp, by simp⟩, ?_, ?_, ?_⟩
            · intro _; trivial
            · intro h; exact absurd h (by simp)
            · intro _; simp

/-! ## Per-item step lemmas -/

theorem processOneSource_step (env : CMEnv) (move : Bool) (dstDir : ByteStr)
    (fuel : Nat) (src : ByteStr) (st : WState) :
    (∀ st', processOneSource env move dstDir fuel src st = (true, st') →
      st'.done = st.done + 1 ∧ st'.fuelOut = st.fuelOut ∧
      st'.scanDone = st.scanDone ∧ st'.totalBytes = st.totalBytes ∧
      ∃ l, st'.events = st.events ++ l) ∧
    (∀ st', processOneSource env move dstDir fuel src st = (false, st') →
      st'.done = st.done ∧ (st'.canceled = true ∨ st'.fuelOut = true) ∧
      st'.scanDone = st.scanDone ∧ st'.totalBytes = st.totalBytes ∧
      ∃ l, st'.events = st.events ++ l) ∧
    (st.canceled = true →
      processOneSource env move dstDir fuel src st = (false, afterCheck env.uiCancel st)) := by
  rw [processOneSource]
  by_cases hc : cancelSeen env.uiCancel st = true
  · rw [if_pos hc]
    refine ⟨?_, ?_, fun _ => rfl⟩
    · intro st' h
      exact absurd (congrArg Prod.fst h) (by simp)
    · intro st' h
      obtain rfl : afterCheck env.uiCancel st = st' := congrArg Prod.snd h
      exact ⟨rfl, Or.inl (by simp [hc]), rfl, rfl, [], by simp⟩
  · rw [if_neg hc]
    have hcf : st.canceled = false := by
      rcases Bool.eq_false_or_eq_true st.canceled with h | h
      · exact absurd (by simp [cancelSeen, h]) hc
      · exact h
    have hcv : ¬st.canceled = true := by simp [hcf]
    by_cases hsrc : src = []
    · rw [if_pos hsrc]
      refine ⟨?_, ?_, fun h => absurd h hcv⟩
      · intro st' h
        obtain rfl := (congrArg Prod.snd h).symm
        exact ⟨rfl, rfl, rfl, rfl, [], by simp⟩
      · intro st' h
        exact absurd (congrArg Prod.fst h) (by simp)
    · rw [if_neg hsrc]
      by_cases hex : env.pathExists src = false
      · rw [if_pos hex]
        refine ⟨?_, ?_, fun h => absurd h hcv⟩
        · intro st' h
          obtain rfl := (congrArg Prod.snd h).symm
          exact ⟨rfl, rfl, rfl, rfl, [], by simp⟩
        · intro st' h
          exact absurd (congrArg Prod.fst h) (by simp)
      · rw [if_neg hex]
        have P := conflictLoop_props env dstDir fuel
          (joinDirAndNameAny dstDir (filenameOf src)) (afterCheck env.uiCancel st)
        rcases hcl : conflictLoop env dstDir fuel
          (joinDirAndNameAny dstDir (filenameOf src)) (afterCheck env.uiCancel st)
          with ⟨out, st2⟩
        rw [hcl] at P
        obtain ⟨Pd, Ps, Pt, ⟨l0, Pl, _⟩, Pstop, Pfo, Pnfo⟩ := P
        simp only at Pd Ps Pt Pl Pstop Pfo Pnfo
        cases out
        · -- proceed
          rename_i dst
          simp only [hcl]
          have hfo2 : st2.fuelOut = st.fuelOut := by simpa using Pnfo (by simp)
          refine ⟨?_, ?_, fun h => absurd h hcv⟩
          · intro st' h
            revert h
            by_cases hc2 : cancelSeen env.uiCancel st2 = true
            · rw [if_pos hc2]
              intro h
              exact absurd (congrArg Prod.fst h) (by simp)
            · rw [if_neg hc2]
              by_cases hbrk : cancelSeen env.uiCancel (performState env move src dst st2) =
                  true ∧ (env.opRes st2.opIdx).ok = false ∧
                  (env.opRes st2.opIdx).message = canceledResult.message
              · rw [if_pos hbrk]
                intro h
                exact absurd (congrArg Prod.fst h) (by simp)
              · rw [if_neg hbrk]
                by_cases hok : (env.opRes st2.opIdx).ok = false
                · rw [if_pos hok]
                  by_cases hc4 : cancelSeen env.uiCancel (pushEvent
                      (WEvent.promptError (env.opRes st2.opIdx).message)
                      (afterCheck env.uiCancel (performState env move src dst st2))) = true
                  · rw [if_pos hc4]
                    intro h
                    exact absurd (congrArg Prod.fst h) (by simp)
                  · rw [if_neg hc4]
                    by_cases hcont : (env.reply (afterCheck env.uiCancel (pushEvent
                        (WEvent.promptError (env.opRes st2.opIdx).message)
                        (afterCheck env.uiCancel
                          (performState env move src dst st2)))).replyIdx).continueAfterError
                        = false
                    · rw [if_pos hcont]
                      intro h
                      exact absurd (congrArg Prod.fst h) (by simp)
                    · rw [if_neg hcont]
                      intro h
                      obtain rfl := (congrArg Prod.snd h).symm
                      refine ⟨by simp [Pd, performState], by simp [hfo2, performState],
                        by simp [Ps, performState], by simp [Pt, performState], ?_⟩
                      refine ⟨l0 ++ [WEvent.performOp move src dst] ++
                        [WEvent.promptError (env.opRes st2.opIdx).message], ?_⟩
                      simp [performState, Pl, List.append_assoc]
                · rw [if_neg hok]
                  intro h
                  obtain rfl := (congrArg Prod.snd h).symm
                  refine ⟨by simp [Pd, performState], by simp [hfo2, performState],
                    by simp [Ps, performState], by simp [Pt, performState], ?_⟩
                  refine ⟨l0 ++ [WEvent.performOp move src dst], ?_⟩
                  simp [performState, Pl, List.append_assoc]
          · intro st' h
            revert h
            by_cases hc2 : cancelSeen env.uiCancel st2 = true
            · rw [if_pos hc2]
              intro h
              obtain rfl := (congrArg Prod.snd h).symm
              exact ⟨by simp [Pd], Or.inl (by simp [hc2]), by simp [Ps], by simp [Pt],
                l0, by simp [Pl]⟩
            · rw [if_neg hc2]
              by_cases hbrk : cancelSeen env.uiCancel (performState env move src dst st2) =
                  true ∧ (env.opRes st2.opIdx).ok = false ∧
                  (env.opRes st2.opIdx).message = canceledResult.message
              · rw [if_pos hbrk]
                intro h
                obtain rfl := (congrArg Prod.snd h).symm
                refine ⟨by simp [Pd, performState], Or.inl (by simpa using hbrk.1),
                  by simp [Ps, performState], by simp [Pt, performState],
                  l0 ++ [WEvent.performOp move src dst], ?_⟩
                simp [performState, Pl, List.append_assoc]
              · rw [if_neg hbrk]
                by_cases hok : (env.opRes st2.opIdx).ok = false
                · rw [if_pos hok]
                  by_cases hc4 : cancelSeen env.uiCancel (pushEvent
                      (WEvent.promptError (env.opRes st2.opIdx).message)
                      (afterCheck env.uiCancel (performState env move src dst st2))) = true
                  · rw [if_pos hc4]
                    intro h
                    obtain rfl := (congrArg Prod.snd h).symm
                    refine ⟨by simp [Pd, performState], Or.inl (by simpa using hc4),
                      by simp [Ps, performState], by simp [Pt, performState],
                      l0 ++ [WEvent.performOp move src dst] ++
                        [WEvent.promptError (env.opRes st2.opIdx).message], ?_⟩
                    simp [performState, Pl, List.append_assoc]
                  · rw [if_neg hc4]
                    by_cases hcont : (env.reply (afterCheck env.uiCancel (pushEvent
                        (WEvent.promptError (env.opRes st2.opIdx).message)
                        (afterCheck env.uiCancel
                          (performState env move src dst st2)))).replyIdx).continueAfterError
                        = false
                    · rw [if_pos hcont]
                      intro h
                      obtain rfl := (congrArg Prod.snd h).symm
                      refine ⟨by simp [Pd, performState], Or.inl (by simp),
                        by simp [Ps, performState], by simp [Pt, performState],
                        l0 ++ [WEvent.performOp move src dst] ++
                          [WEvent.promptError (env.opRes st2.opIdx).message], ?_⟩
                      simp [performState, Pl, List.append_assoc]
                    · rw [if_neg hcont]
                      intro h
                      exact absurd (congrArg Prod.fst h) (by simp)
                · rw [if_neg hok]
                  intro h
                  exact absurd (congrArg Prod.fst h) (by simp)
        · -- skipItem
          simp only [hcl]
          have hfo2 : st2.fuelOut = st.fuelOut := by simpa using Pnfo (by simp)
          refine ⟨?_, ?_, fun h => absurd h hcv⟩
          · intro st' h
            revert h
            by_cases hc2 : cancelSeen env.uiCancel st2 = true
            · rw [if_pos hc2]
              intro h
              exact absurd (congrArg Prod.fst h) (by simp)
            · rw [if_neg hc2]
              intro h
              obtain rfl := (congrArg Prod.snd h).symm
              exact ⟨by simp [Pd], by simp [hfo2], by simp [Ps], by simp [Pt],
                l0, by simp [Pl]⟩
          · intro st' h
            revert h
            by_cases hc2 : cancelSeen env.uiCancel st2 = true
            · rw [if_pos hc2]
              intro h
              obtain rfl := (congrArg Prod.snd h).symm
              exact ⟨by simp [Pd], Or.inl (by simp [hc2]), by simp [Ps], by simp [Pt],
                l0, by simp [Pl]⟩
            · rw [if_neg hc2]
              intro h
              exact absurd (congrArg Prod.fst h) (by simp)
        · -- stop
          simp only [hcl]
          refine ⟨?_, ?_, fun h => absurd h hcv⟩
          · intro st' h
            exact absurd (congrArg Prod.fst h) (by simp)
          · intro st' h
            obtain rfl := (congrArg Prod.snd h).symm
            exact ⟨Pd, Or.inl (Pstop rfl), Ps, Pt, l0, Pl⟩
        · -- fuelOut
          simp only [hcl]
          refine ⟨?_, ?_, fun h => absurd h hcv⟩
          · intro st' h
            exact absurd (congrArg Prod.fst h) (by simp)
          · intro st' h
            obtain rfl := (congrArg Prod.snd h).symm
            exact ⟨Pd, Or.inr (Pfo rfl), Ps, Pt, l0, Pl⟩

theorem runTransfer_props (env : CMEnv) (move : Bool) (dstDir : ByteStr) (fuel : Nat) :
    ∀ (srcs : List ByteStr) (st : WState),
      (st.done ≤ (runTransfer env move dstDir fuel srcs st).done) ∧
      ((runTransfer env move dstDir fuel srcs st).done ≤ st.done + srcs.length) ∧
      ((runTransfer env move dstDir fuel srcs st).canceled = false →
        (runTransfer env move dstDir fuel srcs st).fuelOut = false →
        (runTransfer env move dstDir fuel srcs st).done = st.done + srcs.length) ∧
      ((runTransfer env move dstDir fuel srcs st).scanDone = st.scanDone) ∧
      ((runTransfer env move dstDir fuel srcs st).totalBytes = st.totalBytes) ∧
      (∃ l, (runTransfer env move dstDir fuel srcs st).events = st.events ++ l) ∧
      (st.canceled = true → (runTransfer env move dstDir fuel srcs st).canceled = true) := by
  intro srcs
  induction srcs with
  | nil =>
    intro st
    refine ⟨Nat.le_refl _, by simp [runTransfer], fun _ _ => by simp [runTransfer],
      rfl, rfl, ⟨[], by simp [runTransfer]⟩, fun h => h⟩
  | cons src rest ih =>
    intro st
    have S := processOneSource_step env move dstDir fuel src st
    rcases hps : processOneSource env move dstDir fuel src st with ⟨cont, st1⟩
    cases cont
    · -- the loop broke
      have hrun : runTransfer env move dstDir fuel (src :: rest) st = st1 := by
        simp [runTransfer, hps]
      obtain ⟨hd1, hcf, hs1, ht1, l1, hl1⟩ := S.2.1 st1 hps
      rw [hrun]
      refine ⟨by omega, by simp; omega, ?_, hs1, ht1, ⟨l1, hl1⟩, ?_⟩
      · intro hcc hff
        rcases hcf with h | h
        · rw [h] at hcc; exact absurd hcc (by simp)
        · rw [h] at hff; exact absurd hff (by simp)
      · intro hct
        have := S.2.2 hct
        rw [hps] at this
        obtain rfl : st1 = afterCheck env.uiCancel st := congrArg Prod.snd this
        simp [cancelSeen, hct]
    · -- the loop continued
      have hrun : runTransfer env move dstDir fuel (src :: rest) st =
          runTransfer env move dstDir fuel rest st1 := by
        simp [runTransfer, hps]
      obtain ⟨hd1, hfo1, hs1, ht1, l1, hl1⟩ := S.1 st1 hps
      obtain ⟨ihlo, ihhi, ihcomp, ihs, ihtb, ⟨l2, ihl⟩, ihmono⟩ := ih st1
      rw [hrun]
      refine ⟨by omega, by simp; omega, ?_, by rw [ihs, hs1], by rw [ihtb, ht1],
        ⟨l1 ++ l2, by rw [ihl, hl1, List.append_assoc]⟩, ?_⟩
      · intro hcc hff
        rw [ihcomp hcc hff, hd1]
        simp
        omega
      · intro hct
        have := S.2.2 hct
        rw [hps] at this
        exact absurd (congrArg Prod.fst this) (by simp)

theorem processDeleteSource_step (env : DTEnv) (src : ByteStr) (st : WState) :
    (∀ st', processDeleteSource env src st = (true, st') →
      st'.done = st.done + 1 ∧ st'.fuelOut = st.fuelOut ∧
      st'.scanDone = st.scanDone ∧ st'.totalBytes = st.totalBytes ∧
      ∃ l, st'.events = st.events ++ l) ∧
    (∀ st', processDeleteSource env src st = (false, st') →
      st'.done = st.done ∧ st'.canceled = true ∧ st'.fuelOut = st.fuelOut ∧
      ∃ l, st'.events = st.events ++ l) ∧
    (st.canceled = true →
      processDeleteSource env src st = (false, afterCheck env.uiCancel st)) := by
  rw [processDeleteSource]
  by_cases hc : cancelSeen env.uiCancel st = true
  · rw [if_pos hc]
    refine ⟨?_, ?_, fun _ => rfl⟩
    · intro st' h
      exact absurd (congrArg Prod.fst h) (by simp)
    · intro st' h
      obtain rfl := (congrArg Prod.snd h).symm
      exact ⟨rfl, by simp [hc], rfl, [], by simp⟩
  · rw [if_neg hc]
    have hcv : ¬st.canceled = true := by
      intro h
      exact hc (by simp [cancelSeen, h])
    by_cases hsrc : src = []
    · rw [if_pos hsrc]
      refine ⟨?_, ?_, fun h => absurd h hcv⟩
      · intro st' h
        obtain rfl := (congrArg Prod.snd h).symm
        exact ⟨rfl, rfl, rfl, rfl, [], by simp⟩
      · intro st' h
        exact absurd (congrArg Prod.fst h) (by simp)
    · rw [if_neg hsrc]
      by_cases hok : (env.opRes st.opIdx).ok = false
      · rw [if_pos hok, deleteErrorFlow]
        by_cases hc2 : cancelSeen env.uiCancel (deletePromptState env src st) = true
        · rw [if_pos hc2]
          refine ⟨?_, ?_, fun h => absurd h hcv⟩
          · intro st' h
            exact absurd (congrArg Prod.fst h) (by simp)
          · intro st' h
            obtain rfl := (congrArg Prod.snd h).symm
            refine ⟨by simp [deletePromptState, deleteAttemptState],
              by simpa using hc2,
              by simp [deletePromptState, deleteAttemptState], ?_⟩
            exact ⟨[WEvent.deleteTried src,
              WEvent.promptError (env.opRes st.opIdx).message],
              by simp [deletePromptState, deleteAttemptState]⟩
        · rw [if_neg hc2]
          by_cases hcont : (env.reply st.replyIdx).continueAfterError = false
          · rw [if_pos hcont]
            refine ⟨?_, ?_, fun h => absurd h hcv⟩
            · intro st' h
              exact absurd (congrArg Prod.fst h) (by simp)
            · intro st' h
              obtain rfl := (congrArg Prod.snd h).symm
              refine ⟨by simp [deletePromptState, deleteAttemptState], by simp,
                by simp [deletePromptState, deleteAttemptState], ?_⟩
              exact ⟨[WEvent.deleteTried src,
                WEvent.promptError (env.opRes st.opIdx).message],
                by simp [deletePromptState, deleteAttemptState]⟩
          · rw [if_neg hcont]
            refine ⟨?_, ?_, fun h => absurd h hcv⟩
            · intro st' h
              obtain rfl := (congrArg Prod.snd h).symm
              refine ⟨by simp, by simp [deletePromptState, deleteAttemptState],
                by simp [deletePromptState, deleteAttemptState],
                by simp [deletePromptState, deleteAttemptState], ?_⟩
              exact ⟨[WEvent.deleteTried src,
                WEvent.promptError (env.opRes st.opIdx).message],
                by simp [deletePromptState, deleteAttemptState]⟩
            · intro st' h
              exact absurd (congrArg Prod.fst h) (by simp)
      · rw [if_neg hok]
        refine ⟨?_, ?_, fun h => absurd h hcv⟩
        · intro st' h
          obtain rfl := (congrArg Prod.snd h).symm
          exact ⟨by simp, by simp [deleteAttemptState], by simp [deleteAttemptState],
            by simp [deleteAttemptState],
            [WEvent.deleteTried src], by simp [deleteAttemptState]⟩
        · intro st' h
          exact absurd (congrArg Prod.fst h) (by simp)

theorem runDeleteLoop_props (env : DTEnv) :
    ∀ (srcs : List ByteStr) (st : WState),
      (st.done ≤ (runDeleteLoop env srcs st).done) ∧
      ((runDeleteLoop env srcs st).done ≤ st.done + srcs.length) ∧
      ((runDeleteLoop env srcs st).canceled = false →
        (runDeleteLoop env srcs st).done = st.done + srcs.length) ∧
      (∃ l, (runDeleteLoop env srcs st).events = st.events ++ l) := by
  intro srcs
  induction srcs with
  | nil =>
    intro st
    exact ⟨Nat.le_refl _, by simp [runDeleteLoop], fun _ => by simp [runDeleteLoop],
      ⟨[], by simp [runDeleteLoop]⟩⟩
  | cons src rest ih =>
    intro st
    have S := processDeleteSource_step env src st
    rcases hps : processDeleteSource env src st with ⟨cont, st1⟩
    cases cont
    · have hrun : runDeleteLoop env (src :: rest) st = st1 := by
        simp [runDeleteLoop, hps]
      obtain ⟨hd1, hcc, _, l1, hl1⟩ := S.2.1 st1 hps
      rw [hrun]
      refine ⟨by omega, by simp; omega, ?_, ⟨l1, hl1⟩⟩
      intro h
      rw [hcc] at h
      exact absurd h (by simp)
    · have hrun : runDeleteLoop env (src :: rest) st =
          runDeleteLoop env rest st1 := by
        simp [runDeleteLoop, hps]
      obtain ⟨hd1, _, _, _, l1, hl1⟩ := S.1 st1 hps
      obtain ⟨ihlo, ihhi, ihcomp, ⟨l2, ihl⟩⟩ := ih st1
      rw [hrun]
      refine ⟨by omega, by simp; omega, ?_,
        ⟨l1 ++ l2, by rw [ihl, hl1, List.append_assoc]⟩⟩
      intro h
      rw [ihcomp h, hd1]
      simp
      omega

/-! ## Scan-phase lemmas -/

/-- Specification-side total of a scan (written from the claim: the sum
of regular-file sizes under all sources, walked recursively; a source
whose path is empty or whose status query fails contributes nothing, as
in the walk). -/
def specScanTotal : List SrcItem → Nat
  | [] => 0
  | s :: rest =>
    (if s.path = [] then 0
     else
       match s.node with
       | some n => sumRegularSizes n
       | none => 0) + specScanTotal rest

mutual

theorem node_entry_sum (n : FsNode) :
    entrySize n + ((subEntries n).map entrySize).sum = sumRegularSizes n := by
  cases n with
  | file sz => simp [entrySize, subEntries, sumRegularSizes]
  | dir cs =>
    simp only [entrySize, subEntries, sumRegularSizes, Nat.zero_add]
    exact list_entry_sum cs
  | symlink => simp [entrySize, subEntries, sumRegularSizes]
  | special => simp [entrySize, subEntries, sumRegularSizes]

theorem list_entry_sum (cs : List FsNode) :
    ((subEntriesList cs).map entrySize).sum = sumRegularSizesList cs := by
  cases cs with
  | nil => simp [subEntriesList, sumRegularSizesList]
  | cons c rest =>
    simp only [subEntriesList, sumRegularSizesList, List.map_cons, List.sum_cons,
      List.map_append, List.sum_append]
    rw [← Nat.add_assoc, node_entry_sum c, list_entry_sum rest]

end

theorem scanEntries_state (ui : Nat → Bool) :
    ∀ (es : List FsNode) (st : WState),
      (scanEntries ui es st).2.done = st.done ∧
      (scanEntries ui es st).2.events = st.events ∧
      (scanEntries ui es st).2.fuelOut = st.fuelOut := by
  intro es
  induction es with
  | nil => intro st; exact ⟨rfl, rfl, rfl⟩
  | cons e rest ih =>
    intro st
    rw [scanEntries]
    by_cases hc : cancelSeen ui st = true
    · rw [if_pos hc]; exact ⟨rfl, rfl, rfl⟩
    · rw [if_neg hc]
      rcases hse : scanEntries ui rest (afterCheck ui st) with ⟨t, st2⟩
      have := ih (afterCheck ui st)
      rw [hse] at this
      simp only [hse]
      simpa using this

theorem estimateTotalBytes_state (ui : Nat → Bool) :
    ∀ (srcs : List SrcItem) (st : WState),
      (estimateTotalBytes ui srcs st).2.done = st.done ∧
      (estimateTotalBytes ui srcs st).2.events = st.events ∧
      (estimateTotalBytes ui srcs st).2.fuelOut = st.fuelOut := by
  intro srcs
  induction srcs with
  | nil => intro st; exact ⟨rfl, rfl, rfl⟩
  | cons s rest ih =>
    intro st
    rw [estimateTotalBytes]
    by_cases hc : cancelSeen ui st = true
    · rw [if_pos hc]; exact ⟨rfl, rfl, rfl⟩
    · rw [if_neg hc]
      by_cases hp : s.path = []
      · rw [if_pos hp]
        simpa using ih (afterCheck ui st)
      · rw [if_neg hp]
        cases hn : s.node with
        | none => simpa using ih (afterCheck ui st)
        | some n =>
          cases n with
          | file sz =>
            rcases he : estimateTotalBytes ui rest (afterCheck ui st) with ⟨t, st2⟩
            have := ih (afterCheck ui st)
            rw [he] at this
            simp only [he]
            simpa using this
          | dir cs =>
            rcases hs : scanEntries ui (subEntriesList cs) (afterCheck ui st)
              with ⟨t1, st1⟩
            have h1 := scanEntries_state ui (subEntriesList cs) (afterCheck ui st)
            rw [hs] at h1
            rcases he : estimateTotalBytes ui rest st1 with ⟨t2, st2⟩
            have h2 := ih st1
            rw [he] at h2
            simp only [hs, he]
            refine ⟨?_, ?_, ?_⟩
            · rw [h2.1, h1.1]; rfl
            · rw [h2.2.1, h1.2.1]; rfl
            · rw [h2.2.2, h1.2.2]; rfl
          | symlink => simpa using ih (afterCheck ui st)
          | special => simpa using ih (afterCheck ui st)

theorem scanEntries_nocancel (ui : Nat → Bool) (hnc : ∀ k, ui k = false) :
    ∀ (es : List FsNode) (st : WState), st.canceled = false →
      (scanEntries ui es st).1 = (es.map entrySize).sum ∧
      (scanEntries ui es st).2.canceled = false := by
  intro es
  induction es with
  | nil => intro st h; exact ⟨rfl, h⟩
  | cons e rest ih =>
    intro st h
    have hc : ¬cancelSeen ui st = true := by simp [cancelSeen, h, hnc]
    rw [scanEntries, if_neg hc]
    have hac : (afterCheck ui st).canceled = false := by
      simp [cancelSeen, h, hnc]
    rcases hse : scanEntries ui rest (afterCheck ui st) with ⟨t, st2⟩
    have := ih (afterCheck ui st) hac
    rw [hse] at this
    simp only [hse]
    simpa using this

theorem estimateTotalBytes_nocancel (ui : Nat → Bool) (hnc : ∀ k, ui k = false) :
    ∀ (srcs : List SrcItem) (st : WState), st.canceled = false →
      (estimateTotalBytes ui srcs st).1 = specScanTotal srcs ∧
      (estimateTotalBytes ui srcs st).2.canceled = false := by
  intro srcs
  induction srcs with
  | nil => intro st h; exact ⟨rfl, h⟩
  | cons s rest ih =>
    intro st h
    have hc : ¬cancelSeen ui st = true := by simp [cancelSeen, h, hnc]
    have hac : (afterCheck ui st).canceled = false := by
      simp [cancelSeen, h, hnc]
    rw [estimateTotalBytes, if_neg hc, specScanTotal]
    by_cases hp : s.path = []
    · rw [if_pos hp, if_pos hp]
      simpa using ih (afterCheck ui st) hac
    · rw [if_neg hp, if_neg hp]
      cases hn : s.node with
      | none => simpa using ih (afterCheck ui st) hac
      | some n =>
        cases n with
        | file sz =>
          rcases he : estimateTotalBytes ui rest (afterCheck ui st) with ⟨t, st2⟩
          have := ih (afterCheck ui st) hac
          rw [he] at this
          simp only [he, sumRegularSizes]
          simpa using this
        | dir cs =>
          rcases hs : scanEntries ui (subEntriesList cs) (afterCheck ui st)
            with ⟨t1, st1⟩
          have h1 := scanEntries_nocancel ui hnc (subEntriesList cs)
            (afterCheck ui st) hac
          rw [hs] at h1
          rcases he : estimateTotalBytes ui rest st1 with ⟨t2, st2⟩
          have h2 := ih st1 h1.2
          rw [he] at h2
          simp only [hs, he, sumRegularSizes]
          refine ⟨?_, by simpa using h2.2⟩
          simp only at h1 h2
          rw [h1.1, h2.1, list_entry_sum]
        | symlink =>
          simp only [sumRegularSizes]
          simpa using ih (afterCheck ui st) hac
        | special =>
          simp only [sumRegularSizes]
          simpa using ih (afterCheck ui st) hac

theorem estimateTotalBytes_cancel_stops (srcs : List SrcItem) (st : WState) :
    (estimateTotalBytes (fun _ => true) srcs st).1 = 0 := by
  cases srcs with
  | nil => rfl
  | cons s rest =>
    rw [estimateTotalBytes, if_pos (by simp [cancelSeen])]

@[simp] theorem scanPublishedState_done (env : CMEnv) (sources : List SrcItem) :
    (scanPublishedState env sources).done = (scanResult env sources).2.done := rfl

@[simp] theorem scanPublishedState_scanDone (env : CMEnv) (sources : List SrcItem) :
    (scanPublishedState env sources).scanDone = true := rfl

@[simp] theorem scanPublishedState_totalBytes (env : CMEnv) (sources : List SrcItem) :
    (scanPublishedState env sources).totalBytes = (scanResult env sources).1 := rfl

@[simp] theorem scanPublishedState_events (env : CMEnv) (sources : List SrcItem) :
    (scanPublishedState env sources).events =
      (scanResult env sources).2.events ++
        [WEvent.scanPublished (scanResult env sources).1] := rfl

@[simp] theorem scanPublishedState_fuelOut (env : CMEnv) (sources : List SrcItem) :
    (scanPublishedState env sources).fuelOut = (scanResult env sources).2.fuelOut := rfl

theorem scanResult_state (env : CMEnv) (sources : List SrcItem) :
    (scanResult env sources).2.done = 0 ∧
    (scanResult env sources).2.events = [] ∧
    (scanResult env sources).2.fuelOut = false := by
  rw [scanResult]
  by_cases h : sources.all (fun s => !(looksLikeUriPath s.path)) = true
  · rw [if_pos h]
    have := estimateTotalBytes_state env.uiCancel sources {}
    exact ⟨this.1, this.2.1, this.2.2⟩
  · rw [if_neg h]
    exact ⟨rfl, rfl, rfl⟩

/-! ## Claim C8: the items-done counter -/

/-- C8: in the copy/move transfer loop and in the delete loop alike, the
items-done counter never decreases and never exceeds the number of
sources; each loop iteration that continues the run increments it exactly
once (empty sources, vanished sources, skipped conflicts and
error-continue failures included) and each stopping iteration leaves it
unchanged; and a whole copy/move run that reaches `finished = true`
without cancellation (and within the model's conflict-loop fuel) has
counted every source exactly once. -/
theorem items_done_counter :
    (∀ (env : CMEnv) (move : Bool) (dstDir : ByteStr) (fuel : Nat)
        (srcs : List ByteStr) (st : WState),
      st.done ≤ (runTransfer env move dstDir fuel srcs st).done ∧
      (runTransfer env move dstDir fuel srcs st).done ≤ st.done + srcs.length ∧
      ((runTransfer env move dstDir fuel srcs st).canceled = false →
        (runTransfer env move dstDir fuel srcs st).fuelOut = false →
        (runTransfer env move dstDir fuel srcs st).done = st.done + srcs.length)) ∧
    (∀ (env : CMEnv) (move : Bool) (dstDir : ByteStr) (fuel : Nat)
        (src : ByteStr) (st : WState) (st' : WState),
      (processOneSource env move dstDir fuel src st = (true, st') →
        st'.done = st.done + 1) ∧
      (processOneSource env move dstDir fuel src st = (false, st') →
        st'.done = st.done)) ∧
    (∀ (env : DTEnv) (srcs : List ByteStr) (st : WState),
      st.done ≤ (runDeleteLoop env srcs st).done ∧
      (runDeleteLoop env srcs st).done ≤ st.done + srcs.length ∧
      ((runDeleteLoop env srcs st).canceled = false →
        (runDeleteLoop env srcs st).done = st.done + srcs.length)) ∧
    (∀ (env : DTEnv) (src : ByteStr) (st : WState) (st' : WState),
      (processDeleteSource env src st = (true, st') → st'.done = st.done + 1) ∧
      (processDeleteSource env src st = (false, st') → st'.done = st.done)) ∧
    (∀ (env : CMEnv) (move : Bool) (sources : List SrcItem) (dstDir : ByteStr)
        (fuel : Nat),
      (runCopyMoveWorker env move sources dstDir fuel).finished = true ∧
      (runCopyMoveWorker env move sources dstDir fuel).done ≤ sources.length ∧
      ((runCopyMoveWorker env move sources dstDir fuel).canceled = false →
        (runCopyMoveWorker env move sources dstDir fuel).fuelOut = false →
        (runCopyMoveWorker env move sources dstDir fuel).done = sources.length)) := by
  refine ⟨?_, ?_, ?_, ?_, ?_⟩
  · intro env move dstDir fuel srcs st
    obtain ⟨h1, h2, h3, _⟩ := runTransfer_props env move dstDir fuel srcs st
    exact ⟨h1, h2, h3⟩
  · intro env move dstDir fuel src st st'
    have S := processOneSource_step env move dstDir fuel src st
    exact ⟨fun h => (S.1 st' h).1, fun h => (S.2.1 st' h).1⟩
  · intro env srcs st
    obtain ⟨h1, h2, h3, _⟩ := runDeleteLoop_props env srcs st
    exact ⟨h1, h2, h3⟩
  · intro env src st st'
    have S := processDeleteSource_step env src st
    exact ⟨fun h => (S.1 st' h).1, fun h => (S.2.1 st' h).1⟩
  · intro env move sources dstDir fuel
    obtain ⟨hsd, hse, hsf⟩ := scanResult_state env sources
    obtain ⟨h1, h2, h3, _⟩ := runTransfer_props env move dstDir fuel
      (sources.map (fun s => s.path)) (scanPublishedState env sources)
    refine ⟨rfl, ?_, ?_⟩
    · have : (runCopyMoveWorker env move sources dstDir fuel).done =
          (runTransfer env move dstDir fuel (sources.map (fun s => s.path))
            (scanPublishedState env sources)).done := rfl
      rw [this]
      have hd0 : (scanPublishedState env sources).done = 0 := by simp [hsd]
      calc (runTransfer env move dstDir fuel (sources.map (fun s => s.path))
            (scanPublishedState env sources)).done
          ≤ (scanPublishedState env sources).done +
            (sources.map (fun s => s.path)).length := h2
        _ = sources.length := by simp [hsd]
    · intro hcc hff
      have hceq : (runCopyMoveWorker env move sources dstDir fuel).canceled =
          (runTransfer env move dstDir fuel (sources.map (fun s => s.path))
            (scanPublishedState env sources)).canceled := rfl
      have hfeq : (runCopyMoveWorker env move sources dstDir fuel).fuelOut =
          (runTransfer env move dstDir fuel (sources.map (fun s => s.path))
            (scanPublishedState env sources)).fuelOut := rfl
      have hdeq : (runCopyMoveWorker env move sources dstDir fuel).done =
          (runTransfer env move dstDir fuel (sources.map (fun s => s.path))
            (scanPublishedState env sources)).done := rfl
      rw [hceq] at hcc
      rw [hfeq] at hff
      rw [hdeq, h3 hcc hff]
      simp [hsd]

/-! ## Claim C4: the scan phase -/

/-- C4: the scan is skipped entirely — totalBytes stays 0, "unknown" —
as soon as any source path is a remote (URI-like) address; for all-local
sources without cancellation the published total is exactly the sum of
regular-file sizes under all sources (directories walked recursively,
non-regular entries contributing nothing); the walk's cancellation check
is live (a raised flag stops the walk at once, total 0); and the
`scanDone`/total publication is the worker's first observable event,
before any transfer work. -/
theorem scan_phase_behavior :
    (∀ (env : CMEnv) (move : Bool) (sources : List SrcItem) (dstDir : ByteStr)
        (fuel : Nat),
      (∃ s ∈ sources, looksLikeUriPath s.path = true) →
      (runCopyMoveWorker env move sources dstDir fuel).totalBytes = 0 ∧
      (runCopyMoveWorker env move sources dstDir fuel).scanDone = true) ∧
    (∀ (env : CMEnv) (move : Bool) (sources : List SrcItem) (dstDir : ByteStr)
        (fuel : Nat),
      (∀ s ∈ sources, looksLikeUriPath s.path = false) →
      (∀ k, env.uiCancel k = false) →
      (runCopyMoveWorker env move sources dstDir fuel).totalBytes =
        specScanTotal sources) ∧
    (∀ (sources : List SrcItem) (st : WState),
      (estimateTotalBytes (fun _ => true) sources st).1 = 0) ∧
    (∀ (env : CMEnv) (move : Bool) (sources : List SrcItem) (dstDir : ByteStr)
        (fuel : Nat),
      (runCopyMoveWorker env move sources dstDir fuel).events.head? =
        some (WEvent.scanPublished
          (runCopyMoveWorker env move sources dstDir fuel).totalBytes) ∧
      (runCopyMoveWorker env move sources dstDir fuel).scanDone = true) := by
  have htb : ∀ (env : CMEnv) (move : Bool) (sources : List SrcItem)
      (dstDir : ByteStr) (fuel : Nat),
      (runCopyMoveWorker env move sources dstDir fuel).totalBytes =
        (scanResult env sources).1 := by
    intro env move sources dstDir fuel
    obtain ⟨_, _, _, _, ht, _⟩ := runTransfer_props env move dstDir fuel
      (sources.map (fun s => s.path)) (scanPublishedState env sources)
    have : (runCopyMoveWorker env move sources dstDir fuel).totalBytes =
        (runTransfer env move dstDir fuel (sources.map (fun s => s.path))
          (scanPublishedState env sources)).totalBytes := rfl
    rw [this, ht]
    simp
  have hsd : ∀ (env : CMEnv) (move : Bool) (sources : List SrcItem)
      (dstDir : ByteStr) (fuel : Nat),
      (runCopyMoveWorker env move sources dstDir fuel).scanDone = true := by
    intro env move sources dstDir fuel
    obtain ⟨_, _, _, hs, _⟩ := runTransfer_props env move dstDir fuel
      (sources.map (fun s => s.path)) (scanPublishedState env sources)
    have : (runCopyMoveWorker env move sources dstDir fuel).scanDone =
        (runTransfer env move dstDir fuel (sources.map (fun s => s.path))
          (scanPublishedState env sources)).scanDone := rfl
    rw [this, hs]
    simp
  refine ⟨?_, ?_, ?_, ?_⟩
  · intro env move sources dstDir fuel hrem
    refine ⟨?_, hsd env move sources dstDir fuel⟩
    rw [htb env move sources dstDir fuel, scanResult]
    obtain ⟨s, hsmem, hsuri⟩ := hrem
    rw [if_neg ?_]
    intro hall
    have := List.all_eq_true.mp hall s hsmem
    rw [hsuri] at this
    exact absurd this (by decide)
  · intro env move sources dstDir fuel hloc hnc
    rw [htb env move sources dstDir fuel, scanResult,
      if_pos (List.all_eq_true.mpr (fun s hs => by simp [hloc s hs]))]
    exact (estimateTotalBytes_nocancel env.uiCancel hnc sources {} rfl).1
  · exact estimateTotalBytes_cancel_stops
  · intro env move sources dstDir fuel
    refine ⟨?_, hsd env move sources dstDir fuel⟩
    obtain ⟨_, _, _, _, _, ⟨l, hl⟩, _⟩ := runTransfer_props env move dstDir fuel
      (sources.map (fun s => s.path)) (scanPublishedState env sources)
    have hev : (runCopyMoveWorker env move sources dstDir fuel).events =
        (runTransfer env move dstDir fuel (sources.map (fun s => s.path))
          (scanPublishedState env sources)).events := rfl
    obtain ⟨_, hse, _⟩ := scanResult_state env sources
    rw [hev, hl, htb env move sources dstDir fuel]
    simp [hse]

/-! ## Claim C2: the conflict-resolution protocol -/

/-- C2: with no asynchronous cancel pending, one pass of the conflict
loop behaves exactly as specified: a nonexistent destination proceeds at
once with no prompt; an existing destination raises one `Exists` prompt
and then a `Skip` reply ends the loop marking the item skipped, `Cancel`
sets the cancel flag and stops the run, `Rename name` recomputes the
destination as `JoinDirAndNameAny(dstDir, name)` and re-enters the loop
(re-checking existence), and `Overwrite` proceeds with the current
destination.  At the item level, a skipped item is counted done with no
backend operation recorded, and a proceeding item performs exactly one
backend operation — on the destination the loop resolved — recorded
after all the conflict prompts, so nothing is written before the
conflict is resolved. -/
theorem conflict_decision_protocol (env : CMEnv) (move : Bool) (dstDir : ByteStr)
    (st : WState) (fuel : Nat)
    (hnc : ∀ k, env.uiCancel k = false) (hca : st.canceled = false) :
    (∀ dst, env.pathExists dst = false →
      conflictLoop env dstDir (fuel + 1) dst st =
        (ConflictOut.proceed dst, afterCheck env.uiCancel st)) ∧
    (∀ dst, env.pathExists dst = true →
      (env.reply st.replyIdx).existsChoice = ExistsChoice.skip →
      conflictLoop env dstDir (fuel + 1) dst st =
        (ConflictOut.skipItem, conflictReplyState env dst st)) ∧
    (∀ dst, env.pathExists dst = true →
      (env.reply st.replyIdx).existsChoice = ExistsChoice.cancel →
      conflictLoop env dstDir (fuel + 1) dst st =
        (ConflictOut.stop, {(conflictReplyState env dst st) with canceled := true})) ∧
    (∀ dst name, env.pathExists dst = true →
      (env.reply st.replyIdx).existsChoice = ExistsChoice.rename →
      (env.reply st.replyIdx).renameTo = some name →
      conflictLoop env dstDir (fuel + 1) dst st =
        conflictLoop env dstDir fuel (joinDirAndNameAny dstDir name)
          (conflictReplyState env dst st)) ∧
    (∀ dst, env.pathExists dst = true →
      (env.reply st.replyIdx).existsChoice = ExistsChoice.overwrite →
      conflictLoop env dstDir (fuel + 1) dst st =
        (ConflictOut.proceed dst, conflictReplyState env dst st)) ∧
    (∀ src stc, src ≠ [] → env.pathExists src = true →
      conflictLoop env dstDir fuel (joinDirAndNameAny dstDir (filenameOf src))
          (afterCheck env.uiCancel st) = (ConflictOut.skipItem, stc) →
      stc.canceled = false →
      processOneSource env move dstDir fuel src st =
        (true, {(afterCheck env.uiCancel stc) with done := stc.done + 1})) ∧
    (∀ src dst2 stc, src ≠ [] → env.pathExists src = true →
      conflictLoop env dstDir fuel (joinDirAndNameAny dstDir (filenameOf src))
          (afterCheck env.uiCancel st) = (ConflictOut.proceed dst2, stc) →
      stc.canceled = false →
      (env.opRes stc.opIdx).ok = true →
      processOneSource env move dstDir fuel src st =
        (true, {(afterCheck env.uiCancel (performState env move src dst2 stc)) with
          done := stc.done + 1})) := by
  have hc0 : ¬cancelSeen env.uiCancel st = true := by
    simp [cancelSeen, hca, hnc]
  have hc1 : ∀ dst, ¬cancelSeen env.uiCancel
      (pushEvent (WEvent.promptExists dst) (afterCheck env.uiCancel st)) = true := by
    intro dst
    simp [cancelSeen, hca, hnc]
  refine ⟨?_, ?_, ?_, ?_, ?_, ?_, ?_⟩
  · intro dst hdst
    rw [conflictLoop, if_neg hc0, if_pos hdst]
  · intro dst hdst hr
    rw [conflictLoop, if_neg hc0, if_neg (by simp [hdst]), if_neg (hc1 dst)]
    simp only [conflictPromptState_replyIdx, hr]
  · intro dst hdst hr
    rw [conflictLoop, if_neg hc0, if_neg (by simp [hdst]), if_neg (hc1 dst)]
    simp only [conflictPromptState_replyIdx, hr]
  · intro dst name hdst hr hn
    rw [conflictLoop, if_neg hc0, if_neg (by simp [hdst]), if_neg (hc1 dst)]
    simp only [conflictPromptState_replyIdx, hr, hn]
  · intro dst hdst hr
    rw [conflictLoop, if_neg hc0, if_neg (by simp [hdst]), if_neg (hc1 dst)]
    simp only [conflictPromptState_replyIdx, hr]
  · intro src stc hsrc hex hcl hstc
    rw [processOneSource, if_neg hc0, if_neg hsrc, if_neg (by simp [hex])]
    simp only [hcl]
    rw [if_neg (by simp [cancelSeen, hstc, hnc])]
    rfl
  · intro src dst2 stc hsrc hex hcl hstc hop
    rw [processOneSource, if_neg hc0, if_neg hsrc, if_neg (by simp [hex])]
    simp only [hcl]
    rw [if_neg (by simp [cancelSeen, hstc, hnc])]
    rw [if_neg ?hbrk]
    case hbrk =>
      intro hand
      have h5 : cancelSeen env.uiCancel (performState env move src dst2 stc) = false := by
        simp [cancelSeen, performState, hstc, hnc]
      rw [h5] at hand
      exact absurd hand.1 (by simp)
    rw [if_neg (by simp [hop])]
    rfl

/-- Environment for the C2 witness: no UI cancel, only the destination
`[100]` exists, every deposited reply chooses `Skip`, every backend call
succeeds. -/
def c2WitnessEnv : CMEnv where
  uiCancel := fun _ => false
  pathExists := fun p => decide (p = [100])
  reply := fun _ => {existsChoice := ExistsChoice.skip}
  opRes := fun _ => okResult

/-- Witness for C2: with destination byte string `[100]` existing and a
`Skip` reply deposited, one pass of the conflict loop ends with the item
skipped. -/
theorem conflict_decision_protocol_witness :
    conflictLoop c2WitnessEnv [] (0 + 1) [100] {} =
      (ConflictOut.skipItem, conflictReplyState c2WitnessEnv [100] {}) :=
  ((conflict_decision_protocol c2WitnessEnv false [] {} 0
    (fun _ => rfl) rfl).2.1) [100] (by decide) rfl

/-! ## Claim C6: the destination-inside-source guard -/

/-- C6: for a local copy (and hence for the copy phase of a local move,
which calls the same function), when both paths canonicalize and the
canonicalized destination is lexically inside the canonicalized source —
strictly longer, prefixed by it, with a path-separator at the boundary —
the operation fails with the destination-inside-source error and zero
bytes written, whatever the rest of the copy would have done; and when
the containment test is negative the guard changes nothing. -/
theorem dest_inside_source_guard (canon : ByteStr → Option ByteStr)
    (src dst srcC dstC : ByteStr) (body : OpResult × Nat)
    (h1 : canon src = some srcC) (h2 : canon dst = some dstC) :
    (destInsideSource srcC dstC = true →
      copyPathRecursiveLocal canon src dst body =
        ({ok := false, message := insideSourceMsg}, 0)) ∧
    (destInsideSource srcC dstC = false →
      copyPathRecursiveLocal canon src dst body = body) := by
  constructor
  · intro h3
    simp only [copyPathRecursiveLocal, h1, h2]
    rw [if_pos h3]
  · intro h3
    simp only [copyPathRecursiveLocal, h1, h2]
    rw [if_neg (by simp [h3])]

/-- Witness for C6: with identity canonicalization, copying `"/a"` onto
`"/a/b"` fails with the inside-source error and writes nothing, for an
arbitrary would-be body result. -/
theorem dest_inside_source_guard_witness :
    copyPathRecursiveLocal (fun p => some p) [47, 97] [47, 97, 47, 98]
      (okResult, 5) = ({ok := false, message := insideSourceMsg}, 0) :=
  (dest_inside_source_guard (fun p => some p) [47, 97] [47, 97, 47, 98]
    [47, 97] [47, 97, 47, 98] (okResult, 5) rfl rfl).1 (by decide)

/-! ## Claim C5: trash guard and trash-failure decisions -/

theorem findUriSep_bound : ∀ (s : ByteStr) (p : Nat),
    findUriSep s = some p → p + 3 ≤ s.length := by
  intro s
  induction s with
  | nil => intro p h; exact absurd h (by simp [findUriSep])
  | cons c rest ih =>
    intro p h
    rw [findUriSep.eq_def] at h
    split at h
    · rename_i x tail heq
      injection h with h0
      injection heq with e1 e2
      subst e2
      simp only [List.length_cons, ← h0]
      omega
    · rename_i x1 hd tl hg heq
      injection heq with e1 e2
      rw [← e2] at h
      cases hf : findUriSep rest with
      | none => rw [hf] at h; exact absurd h (by simp)
      | some q =>
        rw [hf] at h
        simp at h
        have := ih q hf
        simp only [List.length_cons]
        omega
    · rename_i x heq
      exact absurd heq (by simp)

theorem schemeLowerOf_ne_nil (s : ByteStr) (h : looksLikeUriString s = true) :
    schemeLowerOf s ≠ [] := by
  rw [looksLikeUriString] at h
  cases hf : findUriSep s with
  | none => rw [hf] at h; exact absurd h (by simp)
  | some p =>
    rw [hf] at h
    have hp : 0 < p := of_decide_eq_true h
    have hb := findUriSep_bound s p hf
    rw [schemeLowerOf]
    simp only [hf]
    intro hnil
    have hlen := congrArg List.length hnil
    rw [List.length_map, List.length_take] at hlen
    simp only [List.length_nil] at hlen
    omega

@[simp] theorem trashAttemptState_events (env : DTEnv) (src : ByteStr) (st : WState) :
    (trashAttemptState env src st).events =
      st.events ++ [WEvent.trashTried src] := rfl

@[simp] theorem trashAttemptState_canceled (env : DTEnv) (src : ByteStr) (st : WState) :
    (trashAttemptState env src st).canceled = cancelSeen env.uiCancel st := rfl

@[simp] theorem trashAttemptState_done (env : DTEnv) (src : ByteStr) (st : WState) :
    (trashAttemptState env src st).done = st.done := rfl

@[simp] theorem trashReplyState_events (env : DTEnv) (src : ByteStr) (st : WState) :
    (trashReplyState env src st).events =
      (st.events ++ [WEvent.trashTried src]) ++
        [WEvent.promptTrashFailed (env.opRes st.opIdx).message] := rfl

@[simp] theorem trashReplyState_done (env : DTEnv) (src : ByteStr) (st : WState) :
    (trashReplyState env src st).done = st.done := rfl

theorem trashReplyState_canceled (env : DTEnv) (src : ByteStr) (st : WState) :
    (trashReplyState env src st).canceled =
      cancelSeen env.uiCancel (trashFailPromptState env src st) := rfl

@[simp] theorem trashDeleteState_events (env : DTEnv) (src : ByteStr) (st : WState) :
    (trashDeleteState env src st).events =
      (trashReplyState env src st).events ++ [WEvent.deleteTried src] := rfl

@[simp] theorem trashDeleteErrState_events (env : DTEnv) (src : ByteStr) (st : WState) :
    (trashDeleteErrState env src st).events =
      (trashDeleteState env src st).events ++
        [WEvent.promptError (env.opRes (st.opIdx + 1)).message] := rfl

/-- C5: `TrashPath` on a remote address whose (lowercased) scheme is not
`file` fails fast with the descriptive "not supported" message, without
`g_file_trash` ever being attempted; and in the trash worker a trash
failure is never silently turned into a permanent delete: the worker
raises the `TrashFailed` prompt, a `Skip` reply counts the item done and
continues with no delete, a `Cancel` reply sets the cancel flag and
stops the run with no delete, only a delete-permanently reply runs
`DeletePath(src)` — and any `DeletePath` the item records comes from
exactly that reply. -/
theorem trash_guard_and_decisions (env : DTEnv) (st : WState)
    (hnc : ∀ k, env.uiCancel k = false) (hca : st.canceled = false) :
    (∀ (gio : ByteStr → OpResult) (s : ByteStr),
      looksLikeUriString s = true → schemeLowerOf s ≠ fileSchemeBytes →
      trashPath false gio s =
        ({ok := false, message := trashUnsupportedMsg}, false)) ∧
    (∀ src, src ≠ [] → (env.opRes st.opIdx).ok = true →
      processTrashSource env src st =
        (true, {(trashAttemptState env src st) with done := st.done + 1})) ∧
    (∀ src, src ≠ [] → (env.opRes st.opIdx).ok = false →
      (env.reply st.replyIdx).trashFailChoice = TrashFailChoice.skip →
      processTrashSource env src st =
        (true, {(trashReplyState env src st) with done := st.done + 1})) ∧
    (∀ src, src ≠ [] → (env.opRes st.opIdx).ok = false →
      (env.reply st.replyIdx).trashFailChoice = TrashFailChoice.cancel →
      processTrashSource env src st =
        (false, {(trashReplyState env src st) with canceled := true})) ∧
    (∀ src, src ≠ [] → (env.opRes st.opIdx).ok = false →
      (env.reply st.replyIdx).trashFailChoice = TrashFailChoice.deletePermanent →
      processTrashSource env src st = trashDeleteFlow env src st ∧
      WEvent.deleteTried src ∈ (processTrashSource env src st).2.events) ∧
    (∀ src, src ≠ [] →
      WEvent.deleteTried src ∈ (processTrashSource env src st).2.events →
      WEvent.deleteTried src ∈ st.events ∨
        ((env.opRes st.opIdx).ok = false ∧
         (env.reply st.replyIdx).trashFailChoice = TrashFailChoice.deletePermanent)) := by
  have hc0 : ¬cancelSeen env.uiCancel st = true := by
    simp [cancelSeen, hca, hnc]
  have hcp : ∀ src, ¬cancelSeen env.uiCancel (trashFailPromptState env src st) = true := by
    intro src
    simp [cancelSeen, trashFailPromptState, trashAttemptState, hca, hnc]
  have hcd : ∀ src, ¬cancelSeen env.uiCancel (trashDeleteErrState env src st) = true := by
    intro src
    simp [cancelSeen, trashDeleteErrState, trashDeleteState, trashReplyState,
      trashFailPromptState, trashAttemptState, hca, hnc]
  have hok' : ∀ src, src ≠ [] → (env.opRes st.opIdx).ok = true →
      processTrashSource env src st =
        (true, {(trashAttemptState env src st) with done := st.done + 1}) := by
    intro src hsrc hok
    rw [processTrashSource, if_neg hc0, if_neg hsrc, if_neg (by simp [hok])]
  have hskip' : ∀ src, src ≠ [] → (env.opRes st.opIdx).ok = false →
      (env.reply st.replyIdx).trashFailChoice = TrashFailChoice.skip →
      processTrashSource env src st =
        (true, {(trashReplyState env src st) with done := st.done + 1}) := by
    intro src hsrc hok hch
    rw [processTrashSource, if_neg hc0, if_neg hsrc, if_pos hok, trashFailFlow,
      if_neg (hcp src)]
    simp only [hch]
  have hcancel' : ∀ src, src ≠ [] → (env.opRes st.opIdx).ok = false →
      (env.reply st.replyIdx).trashFailChoice = TrashFailChoice.cancel →
      processTrashSource env src st =
        (false, {(trashReplyState env src st) with canceled := true}) := by
    intro src hsrc hok hch
    rw [processTrashSource, if_neg hc0, if_neg hsrc, if_pos hok, trashFailFlow,
      if_neg (hcp src)]
    simp only [hch]
  have hdel' : ∀ src, src ≠ [] → (env.opRes st.opIdx).ok = false →
      (env.reply st.replyIdx).trashFailChoice = TrashFailChoice.deletePermanent →
      processTrashSource env src st = trashDeleteFlow env src st := by
    intro src hsrc hok hch
    rw [processTrashSource, if_neg hc0, if_neg hsrc, if_pos hok, trashFailFlow,
      if_neg (hcp src)]
    simp only [hch]
  have hdelmem : ∀ src, WEvent.deleteTried src ∈ (trashDeleteFlow env src st).2.events := by
    intro src
    rw [trashDeleteFlow]
    by_cases hdok : (env.opRes (st.opIdx + 1)).ok = false
    · rw [if_pos hdok, if_neg (hcd src)]
      by_cases hcont : (env.reply (st.replyIdx + 1)).continueAfterError = false
      · rw [if_pos hcont]
        simp
      · rw [if_neg hcont]
        simp
    · rw [if_neg hdok]
      simp
  refine ⟨?_, hok', hskip', hcancel', ?_, ?_⟩
  · intro gio s hs hscheme
    rw [trashPath, if_neg (by simp), if_pos hs,
      if_pos ⟨schemeLowerOf_ne_nil s hs, hscheme⟩]
  · intro src hsrc hok hch
    exact ⟨hdel' src hsrc hok hch, by rw [hdel' src hsrc hok hch]; exact hdelmem src⟩
  · intro src hsrc hmem
    by_cases hok : (env.opRes st.opIdx).ok = false
    · cases hch : (env.reply st.replyIdx).trashFailChoice
      · exact Or.inr ⟨hok, rfl⟩
      · rw [hskip' src hsrc hok hch] at hmem
        have hev : (true, {(trashReplyState env src st) with done := st.done + 1}).2.events =
            (st.events ++ [WEvent.trashTried src]) ++
              [WEvent.promptTrashFailed (env.opRes st.opIdx).message] := rfl
        rw [hev] at hmem
        rcases List.mem_append.mp hmem with h1 | h2
        · rcases List.mem_append.mp h1 with h3 | h4
          · exact Or.inl h3
          · exact absurd (List.mem_singleton.mp h4) (by simp)
        · exact absurd (List.mem_singleton.mp h2) (by simp)
      · rw [hcancel' src hsrc hok hch] at hmem
        have hev : (false, {(trashReplyState env src st) with canceled := true}).2.events =
            (st.events ++ [WEvent.trashTried src]) ++
              [WEvent.promptTrashFailed (env.opRes st.opIdx).message] := rfl
        rw [hev] at hmem
        rcases List.mem_append.mp hmem with h1 | h2
        · rcases List.mem_append.mp h1 with h3 | h4
          · exact Or.inl h3
          · exact absurd (List.mem_singleton.mp h4) (by simp)
        · exact absurd (List.mem_singleton.mp h2) (by simp)
    · rw [hok' src hsrc (by simpa using hok)] at hmem
      have hev : (true, {(trashAttemptState env src st) with done := st.done + 1}).2.events =
          st.events ++ [WEvent.trashTried src] := rfl
      rw [hev] at hmem
      rcases List.mem_append.mp hmem with h1 | h2
      · exact Or.inl h1
      · exact absurd (List.mem_singleton.mp h2) (by simp)

/-- Environment for the C5 witness: no UI cancel, the trash call fails,
the deposited reply chooses `Skip`. -/
def c5WitnessEnv : DTEnv where
  uiCancel := fun _ => false
  opRes := fun _ => {ok := false, message := [120]}
  reply := fun _ => {trashFailChoice := TrashFailChoice.skip}

/-- Witness for C5: a failed trash of source `[97]` with a `Skip` reply
counts the item done and performs no delete. -/
theorem trash_guard_and_decisions_witness :
    processTrashSource c5WitnessEnv [97] {} =
      (true, {(trashReplyState c5WitnessEnv [97] ({} : WState)) with done := 1}) :=
  ((trash_guard_and_decisions c5WitnessEnv {} (fun _ => rfl) rfl).2.2.1) [97]
    (by decide) rfl rfl

end Quarry
